import Mathlib

/-!
Verification of the coordinate-converter core (`src/app.py`).

Strings are embedded as `List Char`; Python floats are idealized as `ℚ`
(infinities and NaN payloads are not representable: a NaN/NA cell is the
`none` of an `Option`, and the model treats non-finite numerals as parse
failures).  Python exceptions that a function catches and turns into
`pd.NA`/`None` are embedded as `Option`.
-/

/-- Python `\s` whitespace (ASCII part, which is all the pipeline produces). -/
def isSpaceC (c : Char) : Bool :=
  c = ' ' || c = '\t' || c = '\n' || c = '\x0d' || c = '\x0b' || c = '\x0c'

/-- ASCII decimal digit test, as in the regex class `[0-9]`. -/
def isDigitC (c : Char) : Bool :=
  '0' ≤ c && c ≤ '9'

/-- Characters kept by `re.sub(r"[^0-9\s.-]", "", s)` in `parse_dms`. -/
def allowedChar (c : Char) : Bool :=
  isDigitC c || isSpaceC c || c = '.' || c = '-'

/-- Numeric value of an ASCII digit character. -/
def digitVal (c : Char) : ℕ := c.toNat - 48

/-- The ASCII digit character for `n < 10` (only called in that range). -/
def digitChar (n : ℕ) : Char :=
  match n with
  | 0 => '0' | 1 => '1' | 2 => '2' | 3 => '3' | 4 => '4'
  | 5 => '5' | 6 => '6' | 7 => '7' | 8 => '8' | _ => '9'

/-- Value of a digit string read positionally (most significant first). -/
def digitsVal : List Char → ℕ
  | [] => 0
  | c :: cs => digitVal c * 10 ^ cs.length + digitsVal cs

/-- Fuel-indexed digit rendering (the fuel keeps the recursion structural,
so terms reduce inside the kernel; `fuel ≥ n` makes the result the true
decimal expansion). -/
def renderNatF : ℕ → ℕ → List Char
  | 0, n => [digitChar n]
  | fuel + 1, n =>
    if n < 10 then [digitChar n]
    else renderNatF fuel (n / 10) ++ [digitChar (n % 10)]

/-- Decimal rendering of a natural number, as Python's `str`/f-string does. -/
def renderNat (n : ℕ) : List Char := renderNatF n n

/-- Python `str.upper()` (ASCII case mapping; all relevant characters are ASCII). -/
def upperL (s : List Char) : List Char := s.map Char.toUpper

/-- Python `str.strip()`: remove leading and trailing whitespace. -/
def stripL (s : List Char) : List Char :=
  ((s.dropWhile isSpaceC).reverse.dropWhile isSpaceC).reverse

/-- Does `pat` occur as a prefix of `s`? (helper for `str.replace`). -/
def startsWithL : List Char → List Char → Bool
  | [], _ => true
  | _ :: _, [] => false
  | p :: ps, c :: cs => p = c && startsWithL ps cs

/-- Fuel-indexed left-to-right non-overlapping replacement scan for a
non-empty pattern `p :: ps`; with `fuel ≥ s.length` this is exactly the
semantics of Python `str.replace`. -/
def replaceGoF (p : Char) (ps rep : List Char) : ℕ → List Char → List Char
  | _, [] => []
  | 0, s => s
  | fuel + 1, c :: cs =>
    if startsWithL (p :: ps) (c :: cs) then
      rep ++ replaceGoF p ps rep fuel (cs.drop ps.length)
    else
      c :: replaceGoF p ps rep fuel cs

def replaceGo (p : Char) (ps rep s : List Char) : List Char :=
  replaceGoF p ps rep s.length s

/-- Python `str.replace pat rep` (for the empty pattern Python interleaves
`rep` everywhere; the source only ever replaces non-empty literals, for which
the two definitions agree). -/
def replaceL (pat rep s : List Char) : List Char :=
  match pat with
  | [] => s
  | p :: ps => replaceGo p ps rep s

/-- The normalisation chain of `parse_dms` lines 31–34: Indonesian
abbreviations/words to N/S/E/W, applied in source order. -/
def replaceChain (s : List Char) : List Char :=
  replaceL "BARAT".toList "W".toList <|
  replaceL "TIMUR".toList "E".toList <|
  replaceL "BB".toList "W".toList <|
  replaceL "BT".toList "E".toList <|
  replaceL "SELATAN".toList "S".toList <|
  replaceL "UTARA".toList "N".toList <|
  replaceL "LS".toList "S".toList <|
  replaceL "LU".toList "N".toList s

/-- `s = dms_str.upper().strip()` followed by the replacement chain:
the string whose 'S'/'W' membership decides the sign in `parse_dms`. -/
def normalizeText (s : List Char) : List Char :=
  replaceChain (stripL (upperL s))

/-- Fuel-indexed splitter for `re.split(r'\s+', s)`: split on runs of
whitespace, with the accumulator holding the current token reversed; the
empty string yields the singleton list containing the empty token, as in
Python.  `fuel ≥ s.length` makes the fuel irrelevant. -/
def splitWsF : ℕ → List Char → List Char → List (List Char)
  | _, [], acc => [acc.reverse]
  | 0, _, acc => [acc.reverse]
  | fuel + 1, c :: cs, acc =>
    if isSpaceC c then acc.reverse :: splitWsF fuel (cs.dropWhile isSpaceC) []
    else splitWsF fuel cs (c :: acc)

def splitWsAux (s acc : List Char) : List (List Char) :=
  splitWsF s.length s acc

def splitWsPy (s : List Char) : List (List Char) := splitWsAux s []

/-- The token list `parts` of `parse_dms` line 42: clean, strip, split. -/
def cleanedTokens (s : List Char) : List (List Char) :=
  splitWsPy (stripL ((normalizeText s).filter allowedChar))

/-- Python `float(token)` for a token over the alphabet `[0-9.-]` (which is
all that survives the cleaning regex): digits with at most one dot and at
least one digit.  `"6."` and `".5"` parse, `"."`, `""`, `"6.5.3"` do not. -/
def parseUnsignedPy (cs : List Char) : Option ℚ :=
  let ip := cs.takeWhile isDigitC
  let rest := cs.dropWhile isDigitC
  if rest.isEmpty then
    if ip.isEmpty then none else some (digitsVal ip : ℚ)
  else if rest.head? = some '.' && rest.tail.all isDigitC
      && !(ip.isEmpty && rest.tail.isEmpty) then
    some ((digitsVal ip : ℚ) + (digitsVal rest.tail : ℚ) / 10 ^ rest.tail.length)
  else none

/-- Python `float(token)` including an optional leading minus sign (a `+`
cannot survive the cleaning regex). -/
def parsePyFloat (cs : List Char) : Option ℚ :=
  match cs with
  | '-' :: rest => (parseUnsignedPy rest).map Neg.neg
  | _ => parseUnsignedPy cs

/-- A loosely-typed Python cell value: a string, a (finite) number, or a
missing value (`None`/`NaN`/`pd.NA`). -/
inductive PyVal where
  | str : List Char → PyVal
  | num : ℚ → PyVal
  | na  : PyVal
deriving DecidableEq

/-- The `i`-th token value of `parse_dms` lines 44–46:
`float(parts[i]) if len(parts) > i else 0`, with `none` for a raised
`ValueError`. -/
def tokVal (parts : List (List Char)) (i : ℕ) : Option ℚ :=
  if i < parts.length then parsePyFloat (parts.getD i []) else some 0

/-- `parse_dms` (src/app.py lines 20–57) on a string argument:
normalise, clean, split, read up to three tokens, combine as
`|deg| + min/60 + sec/3600` and negate on a S/W marker or a negative
degree token.  Any `float` failure is caught and becomes `none` (pd.NA).
Lines 36–37 compute `is_lat`/`is_lon` flags that do not affect the result
and are omitted. -/
def parse_dms_str (s0 : List Char) : Option ℚ :=
  let s := normalizeText s0
  let parts := cleanedTokens s0
  match tokVal parts 0, tokVal parts 1, tokVal parts 2 with
  | some deg, some mnt, some sec =>
    let dd := |deg| + mnt / 60 + sec / 3600
    some (if 'S' ∈ s ∨ 'W' ∈ s ∨ deg < 0 then -dd else dd)
  | _, _, _ => none

/-- `parse_dms` on an arbitrary cell: non-string input short-circuits to
`pd.NA` (line 25–26). -/
def parse_dms (v : PyVal) : Option ℚ :=
  match v with
  | .str s => parse_dms_str s
  | _ => none

/-- Python's `round` to an integer: round-half-to-even (banker's rounding),
idealized over `ℚ`. -/
def roundHalfEven (q : ℚ) : ℤ :=
  let f := ⌊q⌋
  let r := q - (f : ℚ)
  if r < 1 / 2 then f
  else if 1 / 2 < r then f + 1
  else if f % 2 = 0 then f else f + 1

/-- The four base-10 digits of `r < 10000`, most significant first. -/
def fracDigitsRaw (r : ℕ) : List Char :=
  [digitChar (r / 1000), digitChar (r / 100 % 10), digitChar (r / 10 % 10),
   digitChar (r % 10)]

/-- Remove trailing `'0'` characters (Python float `repr` shows the shortest
fraction). -/
def dropTrailingZeros : List Char → List Char
  | [] => []
  | c :: cs =>
    match dropTrailingZeros cs with
    | [] => if c = '0' then [] else [c]
    | ds => c :: ds

/-- Python `repr` of the non-negative float `k / 10^4` (as produced by
`round(x, 4)`): integer part, a dot, and the fraction digits with trailing
zeros removed but at least one digit, e.g. `3005000 ↦ "300.5"`. -/
def renderFloat4 (k : ℕ) : List Char :=
  let fr := dropTrailingZeros (fracDigitsRaw (k % 10000))
  renderNat (k / 10000) ++ '.' :: (if fr.isEmpty then ['0'] else fr)

/-- The two-character sequence (U+00AC, U+221E) that the source file
literally contains between the degrees digits and the following space in
`dd_to_dms` line 78 (a mis-encoded degree sign); `parse_dms` strips it. -/
def degSign : List Char := ['\xac', '∞']

/-- `dd_to_dms` (src/app.py lines 59–81): decimal degrees to a DMS display
string.  `int` truncation on a non-negative value is `⌊·⌋`; `round(x, 4)`
is banker's rounding scaled by `10^4`.  The `float(dd)` conversion cannot
fail for a numeric input, so the model is total on `ℚ`. -/
def dd_to_dms (dd : ℚ) (is_lat : Bool) : List Char :=
  let neg : Bool := dd < 0
  let a := |dd|
  let d : ℕ := (⌊a⌋).toNat
  let m_float : ℚ := (a - (d : ℚ)) * 60
  let m : ℕ := (⌊m_float⌋).toNat
  let k : ℕ := (roundHalfEven ((m_float - (m : ℚ)) * 60 * 10000)).toNat
  let direction : List Char :=
    if is_lat then (if neg then "S (LS)".toList else "N (LU)".toList)
    else (if neg then "W (BB)".toList else "E (BT)".toList)
  renderNat d ++ degSign ++ ' ' :: renderNat m ++ '\'' :: ' ' :: renderFloat4 k
    ++ '"' :: ' ' :: direction

/-- Python `f"{z:02d}"`: decimal with a leading zero for single-digit
non-negative values (negative values never reach it behind the zone guard). -/
def pad02 (z : ℤ) : List Char :=
  if 0 ≤ z ∧ z < 10 then '0' :: renderNat z.toNat
  else if 0 ≤ z then renderNat z.toNat
  else '-' :: renderNat (-z).toNat

/-- Python dict lookup on a literal association table: `d[z]` guarded by
`z in d` (`None` for the raised `ValueError`). -/
def lookupZ (z : ℤ) : List (ℤ × List Char) → Option (List Char)
  | [] => none
  | (k, v) :: es => if z = k then some v else lookupZ z es

/-- The literal DGN95 / UTM North EPSG table of `get_input_epsg_code`
(lines 101–104). -/
def epsg_map_dgn95_n : List (ℤ × List Char) :=
  [(46, "23846".toList), (47, "23847".toList), (48, "23848".toList),
   (49, "23849".toList), (50, "23850".toList), (51, "23851".toList),
   (52, "23852".toList), (53, "23853".toList), (54, "23854".toList)]

/-- The literal DGN95 / UTM South EPSG table (lines 105–108); zone 50
maps to 23890, the documented anomaly. -/
def epsg_map_dgn95_s : List (ℤ × List Char) :=
  [(46, "23896".toList), (47, "23897".toList), (48, "23898".toList),
   (49, "23899".toList), (50, "23890".toList), (51, "23891".toList),
   (52, "23892".toList), (53, "23893".toList), (54, "23894".toList)]

/-- `get_input_epsg_code` (src/app.py lines 83–120).  A raised
`ValueError` is embedded as `none`.  The hemisphere is a one-character
string, embedded as `Char` with Python's `.upper()`. -/
def get_input_epsg_code (zone_num : ℤ) (zone_hemi : Char) (datum : List Char) :
    Option (List Char) :=
  let zh := zone_hemi.toUpper
  if datum = "WGS84".toList then
    if ¬ (1 ≤ zone_num ∧ zone_num ≤ 60) then none
    else if zh = 'S' then some ("327".toList ++ pad02 zone_num)
    else some ("326".toList ++ pad02 zone_num)
  else if datum = "DGN95".toList then
    if zh = 'N' then lookupZ zone_num epsg_map_dgn95_n
    else lookupZ zone_num epsg_map_dgn95_s
  else none

/-- Python `int(·)` truncation of a rational (toward zero). -/
def pyInt (q : ℚ) : ℤ := if q < 0 then ⌈q⌉ else ⌊q⌋

/-- Modelled from the `utm` library (external dependency of
`convert_dd_to_auto_utm`), `utm.latlon_to_zone_number`: the standard
6°-wide zones with the Norway (32) and Svalbard (31/33/35/37) special
bands, wrapping `longitude = 180` around to zone 1. -/
def latlon_to_zone_number (latitude longitude : ℚ) : ℤ :=
  if 56 ≤ latitude ∧ latitude < 64 ∧ 3 ≤ longitude ∧ longitude < 12 then 32
  else if 72 ≤ latitude ∧ latitude ≤ 84 ∧ 0 ≤ longitude ∧ longitude < 9 then 31
  else if 72 ≤ latitude ∧ latitude ≤ 84 ∧ 0 ≤ longitude ∧ longitude < 21 then 33
  else if 72 ≤ latitude ∧ latitude ≤ 84 ∧ 0 ≤ longitude ∧ longitude < 33 then 35
  else if 72 ≤ latitude ∧ latitude ≤ 84 ∧ 0 ≤ longitude ∧ longitude < 42 then 37
  else pyInt ((longitude + 180) / 6) % 60 + 1

/-- The `utm` library's band letters, latitude −80…84 in 8° steps. -/
def zoneLetters : List Char := "CDEFGHJKLMNPQRSTUVWXX".toList

/-- Modelled from the `utm` library, `utm.latitude_to_zone_letter` on an
in-range latitude: `ZONE_LETTERS[int(latitude + 80) >> 3]`. -/
def latitude_to_zone_letter (latitude : ℚ) : Char :=
  zoneLetters.getD ((pyInt (latitude + 80)).toNat / 8) 'X'

/-- `convert_dd_to_auto_utm` (src/app.py lines 122–136).  The numeric
easting/northing that `utm.from_latlon` computes by trigonometry are taken
as an uninterpreted parameter `utmProj`; the zone number, band letter and
the range check (`-80 ≤ lat ≤ 84`, `-180 ≤ lon ≤ 180`, from which the
library raises `OutOfRangeError` otherwise) are modelled exactly.  The
`except` branch returning an `(NA, NA, NA)` triple is the `none`. -/
def convert_dd_to_auto_utm (utmProj : ℚ → ℚ → ℚ × ℚ) (lat_dd lon_dd : ℚ) :
    Option (ℚ × ℚ × List Char) :=
  if -80 ≤ lat_dd ∧ lat_dd ≤ 84 ∧ -180 ≤ lon_dd ∧ lon_dd ≤ 180 then
    let zone_num := latlon_to_zone_number lat_dd lon_dd
    let zone_letter := latitude_to_zone_letter lat_dd
    let zone_hemi : Char := if 'N' ≤ zone_letter.toUpper then 'N' else 'S'
    let en := utmProj lat_dd lon_dd
    some (en.1, en.2, renderNat zone_num.toNat ++ [zone_hemi])
  else none

/-- Exponent part of a Python float literal: optional sign then digits. -/
def parseExpPart (cs : List Char) : Option ℤ :=
  match cs with
  | '+' :: r => if r ≠ [] ∧ r.all isDigitC then some (digitsVal r : ℤ) else none
  | '-' :: r => if r ≠ [] ∧ r.all isDigitC then some (-(digitsVal r : ℤ)) else none
  | r => if r ≠ [] ∧ r.all isDigitC then some (digitsVal r : ℤ) else none

/-- Mantissa plus optional `e`/`E` exponent of a Python float literal. -/
def parseMantExp (s : List Char) : Option ℚ :=
  let isMant : Char → Bool := fun c => isDigitC c || c = '.'
  match parseUnsignedPy (s.takeWhile isMant) with
  | none => none
  | some q =>
    match s.dropWhile isMant with
    | [] => some q
    | 'e' :: ex => (parseExpPart ex).map fun e => q * (10 : ℚ) ^ e
    | 'E' :: ex => (parseExpPart ex).map fun e => q * (10 : ℚ) ^ e
    | _ => none

/-- Modelled from `pd.to_numeric(·, errors='coerce')` on one cell: numbers
pass through, strings are read with the Python float-literal grammar
(whitespace-stripped sign, mantissa, optional exponent), anything else —
including the non-finite spellings `inf`/`nan`, which `ℚ` cannot hold —
coerces to NaN, i.e. `none`. -/
def to_numeric (v : PyVal) : Option ℚ :=
  match v with
  | .num q => some q
  | .na => none
  | .str s =>
    match stripL s with
    | '+' :: r => parseMantExp r
    | '-' :: r => (parseMantExp r).map Neg.neg
    | t => parseMantExp t

/-- Python `int(str)` (sign and digits only), used on `input_zone_str[:-1]`. -/
def parsePyInt (s : List Char) : Option ℤ :=
  parseExpPart (stripL s)

/-- A raw input row: the case-insensitive `x`/`y` cells plus the remaining
columns in their input order.  (The caller lower-cases column names and
rejects tables without `x`/`y`, so a well-formed table has exactly one of
each; `meta` holds every other column.) -/
structure Row where
  x : PyVal
  y : PyVal
  meta : List (List Char × PyVal)
deriving DecidableEq

/-- An enriched output row of `process_coordinates`: the metadata columns
followed by the seven computed columns of `output_columns` (lines 211–215).
Rows surviving `dropna` have definite `lat_dd`/`lon_dd`; the auto-UTM triple
may be NA (per-row failure, line 135–136). -/
structure ERow where
  meta : List (List Char × PyVal)
  lat_dd : ℚ
  lon_dd : ℚ
  lat_dms : List Char
  lon_dms : List Char
  easting_utm : Option ℚ
  northing_utm : Option ℚ
  zone_utm : Option (List Char)
deriving DecidableEq

/-- The computed-column names, in the order of `output_columns`. -/
def outputColNames : List (List Char) :=
  ["lat_dd".toList, "lon_dd".toList, "lat_dms".toList, "lon_dms".toList,
   "easting_utm".toList, "northing_utm".toList, "zone_utm".toList]

/-- The value a DataFrame column named `name` holds after the seven
`df['<computed>'] = …` assignments (lines 150–151/157–158/180–183 and
197–206): a column whose name is one of the computed names has been
overwritten with the computed value, any other column keeps its input
value `v`. -/
def computedCell (e : ERow) (name : List Char) (v : PyVal) : PyVal :=
  if name = "lat_dd".toList then PyVal.num e.lat_dd
  else if name = "lon_dd".toList then PyVal.num e.lon_dd
  else if name = "lat_dms".toList then PyVal.str e.lat_dms
  else if name = "lon_dms".toList then PyVal.str e.lon_dms
  else if name = "easting_utm".toList then (e.easting_utm.map PyVal.num).getD PyVal.na
  else if name = "northing_utm".toList then (e.northing_utm.map PyVal.num).getD PyVal.na
  else if name = "zone_utm".toList then (e.zone_utm.map PyVal.str).getD PyVal.na
  else v

/-- An enriched row as the ordered name→value mapping the caller receives:
`df_final = df[original_cols + output_columns]` (line 217).  The metadata
columns come first in input order, but a metadata column whose name
collides with a computed column was overwritten by the `df['<name>'] = …`
assignment, so it shows the computed value (pandas duplicate-label
selection then shows that same overwritten column at both positions). -/
def ERow.cells (e : ERow) : List (List Char × PyVal) :=
  e.meta.map (fun kv => (kv.1, computedCell e kv.1 kv.2)) ++
  [("lat_dd".toList, PyVal.num e.lat_dd), ("lon_dd".toList, PyVal.num e.lon_dd),
   ("lat_dms".toList, PyVal.str e.lat_dms), ("lon_dms".toList, PyVal.str e.lon_dms),
   ("easting_utm".toList, (e.easting_utm.map PyVal.num).getD PyVal.na),
   ("northing_utm".toList, (e.northing_utm.map PyVal.num).getD PyVal.na),
   ("zone_utm".toList, (e.zone_utm.map PyVal.str).getD PyVal.na)]

/-- Stage 2 of `process_coordinates` (lines 196–206) for one surviving row:
DMS strings and the auto-UTM triple. -/
def enrichRow (utmProj : ℚ → ℚ → ℚ × ℚ) (meta : List (List Char × PyVal))
    (lon_dd lat_dd : ℚ) : ERow :=
  match convert_dd_to_auto_utm utmProj lat_dd lon_dd with
  | some (e, n, z) =>
    { meta, lat_dd, lon_dd,
      lat_dms := dd_to_dms lat_dd true, lon_dms := dd_to_dms lon_dd false,
      easting_utm := some e, northing_utm := some n, zone_utm := some z }
  | none =>
    { meta, lat_dd, lon_dd,
      lat_dms := dd_to_dms lat_dd true, lon_dms := dd_to_dms lon_dd false,
      easting_utm := none, northing_utm := none, zone_utm := none }

/-- The three input representations of the selectbox (line 243–246). -/
inductive InputRepr where
  | dd | dms | utm
deriving DecidableEq

/-- Stage 1 of `process_coordinates` (lines 147–186): the per-row
`(lon_dd, lat_dd)` computation selected by the input representation.
For UTM input, the zone string is split as `int(s[:-1])`/`s[-1]`, the EPSG
code is resolved once for the batch, and `pyTrans epsg easting northing` is
the (uninterpreted) pyproj transform to WGS84; per the spec §4.4 an
undefined input yields an undefined point.  A failure of the zone parse or
of the resolver is the `st.error … return None` branch, i.e. `none`. -/
def stage1Fn (pyTrans : List Char → ℚ → ℚ → ℚ × ℚ) (repr : InputRepr)
    (datum : List Char) (zoneStr : List Char) :
    Option (Row → Option ℚ × Option ℚ) :=
  match repr with
  | .dd => some fun r => (to_numeric r.x, to_numeric r.y)
  | .dms => some fun r => (parse_dms r.x, parse_dms r.y)
  | .utm =>
    match parsePyInt zoneStr.dropLast, zoneStr.getLast? with
    | some zone_num, some hc =>
      match get_input_epsg_code zone_num hc.toUpper datum with
      | some epsg => some fun r =>
        match to_numeric r.x, to_numeric r.y with
        | some e, some n => let p := pyTrans epsg e n; (some p.1, some p.2)
        | _, _ => (none, none)
      | none => none
    | _, _ => none

/-- `process_coordinates` (src/app.py lines 138–219).  Stage 1 normalises to
decimal degrees, `dropna` (line 189) drops rows whose `lon_dd` or `lat_dd`
is NA, an empty remainder is the `st.warning … return None` branch
(lines 190–192), and Stage 2 plus the final column selection build the
output rows. -/
def process_coordinates (utmProj : ℚ → ℚ → ℚ × ℚ)
    (pyTrans : List Char → ℚ → ℚ → ℚ × ℚ) (df_input : List Row)
    (repr : InputRepr) (datum : List Char) (zoneStr : List Char) :
    Option (List ERow) :=
  match stage1Fn pyTrans repr datum zoneStr with
  | none => none
  | some f =>
    let out := df_input.filterMap fun r =>
      match f r with
      | (some lon, some lat) => some (enrichRow utmProj r.meta lon lat)
      | _ => none
    if out.isEmpty then none else some out

/-! ### Digit and rendering lemmas -/

theorem isDigitC_digitChar (n : ℕ) : isDigitC (digitChar n) = true := by
  unfold digitChar
  split <;> decide

theorem digitVal_digitChar (n : ℕ) (h : n < 10) : digitVal (digitChar n) = n := by
  interval_cases n <;> decide

theorem renderNatF_irrel (f1 : ℕ) : ∀ (f2 n : ℕ), n ≤ f1 → n ≤ f2 →
    renderNatF f1 n = renderNatF f2 n := by
  induction f1 with
  | zero =>
    intro f2 n h1 h2
    interval_cases n
    cases f2 <;> simp [renderNatF]
  | succ fu ih =>
    intro f2 n h1 h2
    cases f2 with
    | zero =>
      interval_cases n
      simp [renderNatF]
    | succ f2' =>
      simp only [renderNatF]
      split
      · rfl
      · rename_i hn
        have hlt : n / 10 < n := Nat.div_lt_self (by omega) (by omega)
        rw [ih f2' (n / 10) (by omega) (by omega)]

theorem renderNat_eq (n : ℕ) :
    renderNat n = if n < 10 then [digitChar n]
      else renderNat (n / 10) ++ [digitChar (n % 10)] := by
  cases n with
  | zero => decide
  | succ m =>
    show renderNatF (m + 1) (m + 1) = _
    simp only [renderNatF]
    split
    · rfl
    · rename_i h
      have hlt : (m + 1) / 10 < m + 1 := Nat.div_lt_self (by omega) (by omega)
      rw [renderNatF_irrel m ((m + 1) / 10) ((m + 1) / 10) (by omega)
        (le_refl _)]
      rfl

theorem renderNat_ne_nil (n : ℕ) : renderNat n ≠ [] := by
  rw [renderNat_eq]
  split <;> simp

theorem renderNat_digits (n : ℕ) : ∀ c ∈ renderNat n, isDigitC c = true := by
  induction n using Nat.strong_induction_on with
  | _ n ih =>
    rw [renderNat_eq]
    split
    · simp [isDigitC_digitChar]
    · rename_i h
      intro c hc
      rcases List.mem_append.mp hc with h1 | h1
      · exact ih (n / 10) (Nat.div_lt_self (by omega) (by omega)) c h1
      · simp only [List.mem_singleton] at h1
        subst h1; exact isDigitC_digitChar _

theorem digitsVal_append_single (xs : List Char) (c : Char) :
    digitsVal (xs ++ [c]) = 10 * digitsVal xs + digitVal c := by
  induction xs with
  | nil => simp [digitsVal]
  | cons x xs ih =>
    simp only [List.cons_append, digitsVal, List.append_eq, ih,
      List.length_append, List.length_cons, List.length_nil, pow_succ, pow_zero]
    ring

theorem digitsVal_renderNat (n : ℕ) : digitsVal (renderNat n) = n := by
  induction n using Nat.strong_induction_on with
  | _ n ih =>
    rw [renderNat_eq]
    split
    · rename_i h
      simp [digitsVal, digitVal_digitChar n h]
    · rename_i h
      rw [digitsVal_append_single,
        ih (n / 10) (Nat.div_lt_self (by omega) (by omega)),
        digitVal_digitChar _ (Nat.mod_lt _ (by omega))]
      omega

/-! ### takeWhile/dropWhile helpers -/

theorem takeWhile_all {p : Char → Bool} (l : List Char)
    (h : ∀ c ∈ l, p c = true) : l.takeWhile p = l := by
  induction l with
  | nil => rfl
  | cons c cs ih =>
    rw [List.takeWhile_cons, h c (by simp)]
    simp [ih fun c hc => h c (by simp [hc])]

theorem dropWhile_all {p : Char → Bool} (l : List Char)
    (h : ∀ c ∈ l, p c = true) : l.dropWhile p = [] := by
  induction l with
  | nil => rfl
  | cons c cs ih =>
    rw [List.dropWhile_cons, h c (by simp)]
    simp [ih fun c hc => h c (by simp [hc])]

theorem takeWhile_append_stop {p : Char → Bool} (xs : List Char) (y : Char)
    (ys : List Char) (hxs : ∀ c ∈ xs, p c = true) (hy : p y = false) :
    (xs ++ y :: ys).takeWhile p = xs := by
  induction xs with
  | nil => simp [List.takeWhile_cons, hy]
  | cons x xs ih =>
    rw [List.cons_append, List.takeWhile_cons, hxs x (by simp)]
    simp [ih fun c hc => hxs c (by simp [hc])]

theorem dropWhile_append_stop {p : Char → Bool} (xs : List Char) (y : Char)
    (ys : List Char) (hxs : ∀ c ∈ xs, p c = true) (hy : p y = false) :
    (xs ++ y :: ys).dropWhile p = y :: ys := by
  induction xs with
  | nil => simp [List.dropWhile_cons, hy]
  | cons x xs ih =>
    rw [List.cons_append, List.dropWhile_cons, hxs x (by simp)]
    simp [ih fun c hc => hxs c (by simp [hc])]

/-! ### Parsing the rendered numerals back -/

theorem parseUnsignedPy_digits (l : List Char) (hne : l ≠ [])
    (hd : ∀ c ∈ l, isDigitC c = true) :
    parseUnsignedPy l = some (digitsVal l : ℚ) := by
  unfold parseUnsignedPy
  rw [takeWhile_all l hd, dropWhile_all l hd]
  simp [List.isEmpty_iff, hne]

theorem parsePyFloat_eq_unsigned (l : List Char)
    (h : ∀ rest, l ≠ '-' :: rest) : parsePyFloat l = parseUnsignedPy l := by
  unfold parsePyFloat
  split
  · exact absurd rfl (h _)
  · rfl

theorem parsePyFloat_renderNat (n : ℕ) :
    parsePyFloat (renderNat n) = some (n : ℚ) := by
  rw [parsePyFloat_eq_unsigned, parseUnsignedPy_digits _ (renderNat_ne_nil n)
    (renderNat_digits n), digitsVal_renderNat]
  intro rest h
  have := renderNat_digits n '-' (by rw [h]; simp)
  simp [isDigitC] at this

theorem dropTrailingZeros_sub {p : Char → Bool} (l : List Char)
    (h : ∀ c ∈ l, p c = true) : ∀ c ∈ dropTrailingZeros l, p c = true := by
  induction l with
  | nil => simp [dropTrailingZeros]
  | cons c cs ih =>
    simp only [dropTrailingZeros]
    split
    · split
      · simp
      · intro d hd
        simp only [List.mem_singleton] at hd
        subst hd; exact h d (by simp)
    · intro d hd
      rcases List.mem_cons.mp hd with h1 | h1
      · subst h1; exact h d (by simp)
      · exact ih (fun e he => h e (by simp [he])) d h1

theorem divpow_cons (v A : ℚ) (a : ℕ) :
    (v * 10 ^ a + A) / 10 ^ (a + 1) = v / 10 + A / 10 ^ a / 10 := by
  have h : (10 : ℚ) ^ a ≠ 0 := by positivity
  field_simp [pow_succ]
  ring

theorem dropTrailingZeros_val (l : List Char) :
    (digitsVal (dropTrailingZeros l) : ℚ) / 10 ^ (dropTrailingZeros l).length
      = (digitsVal l : ℚ) / 10 ^ l.length := by
  induction l with
  | nil => simp [dropTrailingZeros]
  | cons c cs ih =>
    simp only [dropTrailingZeros]
    split
    · rename_i hnil
      rw [hnil] at ih
      simp only [digitsVal, List.length_nil, pow_zero, Nat.cast_zero,
        zero_div] at ih
      have hcs : (digitsVal cs : ℚ) = 0 := by
        field_simp at ih
        exact_mod_cast ih.symm
      split
      · rename_i hc0
        simp only [digitsVal, List.length_cons, List.length_nil, pow_zero,
          Nat.cast_zero, zero_div]
        rw [hc0]
        push_cast [hcs]
        simp [digitVal]
      · simp only [digitsVal, List.length_cons, List.length_singleton,
          List.length_nil, pow_one, pow_zero, mul_one, Nat.cast_add,
          Nat.cast_mul, Nat.cast_pow]
        rw [div_eq_div_iff (by positivity) (by positivity)]
        push_cast [hcs]
        ring
    · simp only [digitsVal, List.length_cons]
      push_cast
      rw [divpow_cons, divpow_cons, ih]

theorem fracDigitsRaw_digits (r : ℕ) : ∀ c ∈ fracDigitsRaw r, isDigitC c = true := by
  intro c hc
  simp only [fracDigitsRaw, List.mem_cons, List.mem_singleton,
    List.not_mem_nil, or_false] at hc
  rcases hc with h | h | h | h <;> (subst h; exact isDigitC_digitChar _)

theorem digitsVal_fracDigitsRaw (r : ℕ) (h : r < 10000) :
    digitsVal (fracDigitsRaw r) = r := by
  simp only [fracDigitsRaw, digitsVal, List.length_cons, List.length_nil]
  rw [digitVal_digitChar _ (by omega), digitVal_digitChar _ (by omega),
    digitVal_digitChar _ (by omega), digitVal_digitChar _ (by omega)]
  simp only [pow_succ, pow_zero]
  omega

theorem renderFloat4_digits_dot (k : ℕ) :
    ∀ c ∈ renderFloat4 k, isDigitC c = true ∨ c = '.' := by
  intro c hc
  simp only [renderFloat4, List.mem_append, List.mem_cons] at hc
  rcases hc with h | h | h
  · exact Or.inl (renderNat_digits _ c h)
  · exact Or.inr h
  · left
    split at h
    · simp only [List.mem_singleton] at h; subst h; decide
    · exact dropTrailingZeros_sub _ (fracDigitsRaw_digits _) c h

theorem parseUnsignedPy_dot (xs fr : List Char)
    (hxs : ∀ c ∈ xs, isDigitC c = true) (hfr : ∀ c ∈ fr, isDigitC c = true)
    (hne : xs ≠ []) :
    parseUnsignedPy (xs ++ '.' :: fr)
      = some ((digitsVal xs : ℚ) + (digitsVal fr : ℚ) / 10 ^ fr.length) := by
  unfold parseUnsignedPy
  rw [takeWhile_append_stop _ _ _ hxs (by decide),
    dropWhile_append_stop _ _ _ hxs (by decide)]
  have h1 : fr.all isDigitC = true := List.all_eq_true.mpr hfr
  have h2 : xs.isEmpty = false := by
    cases xs with
    | nil => exact absurd rfl hne
    | cons a l => rfl
  simp [h1, h2]

theorem parsePyFloat_renderFloat4 (k : ℕ) :
    parsePyFloat (renderFloat4 k) = some ((k : ℚ) / 10000) := by
  have hfrd : ∀ c ∈ dropTrailingZeros (fracDigitsRaw (k % 10000)),
      isDigitC c = true :=
    dropTrailingZeros_sub _ (fracDigitsRaw_digits _)
  have hfr : ∀ c ∈ (if (dropTrailingZeros (fracDigitsRaw (k % 10000))).isEmpty
      then ['0'] else dropTrailingZeros (fracDigitsRaw (k % 10000))),
      isDigitC c = true := by
    split
    · intro c hc
      simp only [List.mem_singleton] at hc
      subst hc; decide
    · exact hfrd
  have hmod : k % 10000 < 10000 := Nat.mod_lt _ (by omega)
  have hfrac : ((digitsVal (if (dropTrailingZeros (fracDigitsRaw (k % 10000))).isEmpty
      then ['0'] else dropTrailingZeros (fracDigitsRaw (k % 10000))) : ℚ)
      / 10 ^ (if (dropTrailingZeros (fracDigitsRaw (k % 10000))).isEmpty
      then ['0'] else dropTrailingZeros (fracDigitsRaw (k % 10000))).length)
      = ((k % 10000 : ℕ) : ℚ) / 10000 := by
    have base := dropTrailingZeros_val (fracDigitsRaw (k % 10000))
    rw [digitsVal_fracDigitsRaw _ hmod] at base
    have hlen : (fracDigitsRaw (k % 10000)).length = 4 := by simp [fracDigitsRaw]
    rw [hlen] at base
    split
    · rename_i hemp
      rw [List.isEmpty_iff] at hemp
      rw [hemp] at base
      simp only [digitsVal, List.length_nil, pow_zero, Nat.cast_zero,
        zero_div] at base
      have h0 : ((k % 10000 : ℕ) : ℚ) = 0 := by
        have : (0 : ℚ) = ((k % 10000 : ℕ) : ℚ) / 10 ^ 4 := base
        field_simp at this
        exact this.symm
      rw [h0]
      simp [digitsVal, digitVal]
    · rw [base]
      norm_num
  rw [parsePyFloat_eq_unsigned]
  · unfold renderFloat4
    rw [parseUnsignedPy_dot _ _ (renderNat_digits _) hfr (renderNat_ne_nil _),
      digitsVal_renderNat, hfrac]
    congr 1
    have hk : (10000 : ℚ) * ((k / 10000 : ℕ) : ℚ) + ((k % 10000 : ℕ) : ℚ)
        = (k : ℚ) := by
      exact_mod_cast congrArg (Nat.cast (R := ℚ)) (Nat.div_add_mod k 10000)
    field_simp
    linarith [hk]
  · intro rest h
    have hmem : '-' ∈ renderFloat4 k := by rw [h]; simp
    unfold renderFloat4 at hmem
    simp only [List.mem_append, List.mem_cons] at hmem
    rcases hmem with h1 | h1 | h1
    · have := renderNat_digits _ '-' h1
      simp [isDigitC] at this
    · exact absurd h1 (by decide)
    · have : isDigitC '-' = true := by
        revert h1
        split
        · intro h1
          simp only [List.mem_singleton] at h1
          exact absurd h1 (by decide)
        · intro h1
          exact hfrd _ h1
      simp [isDigitC] at this

/-! ### C3: WGS84 zone resolution -/

/-- C3: for every zone `z ∈ [1,60]`, `get_input_epsg_code` on datum WGS84
returns the decimal EPSG string `32600+z` for hemisphere N and `32700+z`
for hemisphere S, and for every `z` outside `[1,60]` it raises
(`none`, the ConfigurationError). -/
theorem resolveEpsg_wgs84_c3 :
    (∀ z : ℤ, 1 ≤ z → z ≤ 60 →
      get_input_epsg_code z 'N' "WGS84".toList
          = some (renderNat (32600 + z).toNat) ∧
      get_input_epsg_code z 'S' "WGS84".toList
          = some (renderNat (32700 + z).toNat)) ∧
    (∀ z : ℤ, z < 1 ∨ 60 < z →
      get_input_epsg_code z 'N' "WGS84".toList = none ∧
      get_input_epsg_code z 'S' "WGS84".toList = none) := by
  constructor
  · intro z h1 h2
    interval_cases z <;> exact ⟨by decide, by decide⟩
  · intro z hz
    have hN : get_input_epsg_code z 'N' "WGS84".toList
        = if ¬ (1 ≤ z ∧ z ≤ 60) then none
          else some ("326".toList ++ pad02 z) := rfl
    have hS : get_input_epsg_code z 'S' "WGS84".toList
        = if ¬ (1 ≤ z ∧ z ≤ 60) then none
          else some ("327".toList ++ pad02 z) := rfl
    rw [hN, hS, if_pos (by omega), if_pos (by omega)]
    exact ⟨rfl, rfl⟩

/-- Witness for C3 at `z = 7` (in range) and `z = 61` (out of range). -/
theorem resolveEpsg_wgs84_c3_witness :
    get_input_epsg_code 7 'N' "WGS84".toList
        = some (renderNat (32600 + (7 : ℤ)).toNat) ∧
    get_input_epsg_code 61 'S' "WGS84".toList = none :=
  ⟨(resolveEpsg_wgs84_c3.1 7 (by decide) (by decide)).1,
   (resolveEpsg_wgs84_c3.2 61 (by omega)).2⟩

/-! ### C2: DGN95 zone resolution -/

/-- C2: for every DGN95 zone in `[46,54]` and hemisphere, the resolver
returns exactly the fixed literal table value (with the 23890 anomaly at
50-South), and every zone outside `[46,54]` raises (`none`, the
ConfigurationError). -/
theorem resolveEpsg_dgn95_c2 :
    (get_input_epsg_code 46 'N' "DGN95".toList = some "23846".toList ∧
     get_input_epsg_code 47 'N' "DGN95".toList = some "23847".toList ∧
     get_input_epsg_code 48 'N' "DGN95".toList = some "23848".toList ∧
     get_input_epsg_code 49 'N' "DGN95".toList = some "23849".toList ∧
     get_input_epsg_code 50 'N' "DGN95".toList = some "23850".toList ∧
     get_input_epsg_code 51 'N' "DGN95".toList = some "23851".toList ∧
     get_input_epsg_code 52 'N' "DGN95".toList = some "23852".toList ∧
     get_input_epsg_code 53 'N' "DGN95".toList = some "23853".toList ∧
     get_input_epsg_code 54 'N' "DGN95".toList = some "23854".toList) ∧
    (get_input_epsg_code 46 'S' "DGN95".toList = some "23896".toList ∧
     get_input_epsg_code 47 'S' "DGN95".toList = some "23897".toList ∧
     get_input_epsg_code 48 'S' "DGN95".toList = some "23898".toList ∧
     get_input_epsg_code 49 'S' "DGN95".toList = some "23899".toList ∧
     get_input_epsg_code 50 'S' "DGN95".toList = some "23890".toList ∧
     get_input_epsg_code 51 'S' "DGN95".toList = some "23891".toList ∧
     get_input_epsg_code 52 'S' "DGN95".toList = some "23892".toList ∧
     get_input_epsg_code 53 'S' "DGN95".toList = some "23893".toList ∧
     get_input_epsg_code 54 'S' "DGN95".toList = some "23894".toList) ∧
    (∀ z : ℤ, z < 46 ∨ 54 < z →
      get_input_epsg_code z 'N' "DGN95".toList = none ∧
      get_input_epsg_code z 'S' "DGN95".toList = none) := by
  refine ⟨by decide, by decide, fun z hz => ?_⟩
  have hN : get_input_epsg_code z 'N' "DGN95".toList
      = lookupZ z epsg_map_dgn95_n := rfl
  have hS : get_input_epsg_code z 'S' "DGN95".toList
      = lookupZ z epsg_map_dgn95_s := rfl
  have hnone : ∀ tbl : List (ℤ × List Char),
      (∀ kv ∈ tbl, 46 ≤ kv.1 ∧ kv.1 ≤ 54) → lookupZ z tbl = none := by
    intro tbl
    induction tbl with
    | nil => intro _; rfl
    | cons kv tl ih =>
      intro hall
      have hk := hall kv (by simp)
      rw [lookupZ, if_neg (by omega)]
      exact ih fun e he => hall e (by simp [he])
  rw [hN, hS]
  exact ⟨hnone _ (by decide), hnone _ (by decide)⟩

/-- Witness for C2 at the 50-South anomaly and the out-of-range zone 45. -/
theorem resolveEpsg_dgn95_c2_witness :
    get_input_epsg_code 50 'S' "DGN95".toList = some "23890".toList ∧
    get_input_epsg_code 45 'N' "DGN95".toList = none :=
  ⟨resolveEpsg_dgn95_c2.2.1.2.2.2.2.1,
   (resolveEpsg_dgn95_c2.2.2 45 (by omega)).1⟩

/-! ### C5: auto-UTM hemisphere letter -/

/-- C5: for every point the forward auto-UTM projection accepts, the
hemisphere letter ending the zone label is `N` exactly when the latitude is
non-negative, and `S` otherwise.  (The code derives it from the band letter
`ZONE_LETTERS[int(lat+80) >> 3] ≥ 'N'`, which coincides extensionally with
the sign rule on the whole accepted range.) -/
theorem auto_utm_hemisphere_c5 (utmProj : ℚ → ℚ → ℚ × ℚ) (lat lon : ℚ)
    (h1 : -80 ≤ lat) (h2 : lat ≤ 84) (h3 : -180 ≤ lon) (h4 : lon ≤ 180) :
    ∃ e n zl, convert_dd_to_auto_utm utmProj lat lon = some (e, n, zl) ∧
      zl.getLast? = some (if 0 ≤ lat then 'N' else 'S') := by
  unfold convert_dd_to_auto_utm
  rw [if_pos ⟨h1, h2, h3, h4⟩]
  refine ⟨_, _, _, rfl, ?_⟩
  have hlast : ∀ (l : List Char) (c : Char), (l ++ [c]).getLast? = some c := by
    intro l c
    rw [List.getLast?_append_cons]
    rfl
  rw [hlast]
  congr 1
  -- the band letter test agrees with the sign test
  have hnn : (0 : ℚ) ≤ lat + 80 := by linarith
  have hp : pyInt (lat + 80) = ⌊lat + 80⌋ := by
    unfold pyInt
    rw [if_neg (not_lt.mpr hnn)]
  have hf0 : 0 ≤ ⌊lat + 80⌋ := Int.floor_nonneg.mpr hnn
  have hf164 : ⌊lat + 80⌋ ≤ 164 := by
    have h := Int.floor_le (lat + 80)
    have : (⌊lat + 80⌋ : ℚ) ≤ 164 := by linarith
    exact_mod_cast this
  unfold latitude_to_zone_letter
  rw [hp]
  have hidx : (⌊lat + 80⌋).toNat / 8 ≤ 20 := by omega
  have hiff : 10 ≤ (⌊lat + 80⌋).toNat / 8 ↔ 0 ≤ lat := by
    have h80 : 80 ≤ ⌊lat + 80⌋ ↔ (80 : ℚ) ≤ lat + 80 := Int.le_floor
    constructor
    · intro h
      have : 80 ≤ ⌊lat + 80⌋ := by omega
      have := h80.mp this
      linarith
    · intro h
      have : (80 : ℚ) ≤ lat + 80 := by linarith
      have := h80.mpr this
      omega
  have hlet : ∀ i : ℕ, i ≤ 20 →
      (('N' ≤ (zoneLetters.getD i 'X').toUpper) ↔ 10 ≤ i) := by
    intro i hi
    interval_cases i <;> decide
  by_cases hlat : 0 ≤ lat
  · rw [if_pos hlat, if_pos ((hlet _ hidx).mpr (hiff.mpr hlat))]
  · rw [if_neg hlat, if_neg ?hc]
    intro hcon
    exact hlat (hiff.mp ((hlet _ hidx).mp hcon))

/-- Witness for C5 at the Jakarta-like point `(lat, lon) = (-6, 106)`. -/
theorem auto_utm_hemisphere_c5_witness :
    ∃ e n zl, convert_dd_to_auto_utm (fun _ _ => ((0 : ℚ), (0 : ℚ)))
      (-6) 106 = some (e, n, zl) ∧
      zl.getLast? = some (if (0 : ℚ) ≤ -6 then 'N' else 'S') :=
  auto_utm_hemisphere_c5 _ (-6) 106 (by norm_num) (by norm_num) (by norm_num)
    (by norm_num)

/-! ### C6: auto-UTM zone number -/

/-- C6 counterexample: at the accepted point `(lat, lon) = (60, 5)` (inside
the Norway special band) the produced zone label is `32N`, while
`floor((lon+180)/6)+1 = 31`: the output zone does not match the formula. -/
theorem auto_utm_zone_c6_counterexample :
    ¬ ∃ e n h, convert_dd_to_auto_utm (fun _ _ => ((0 : ℚ), (0 : ℚ))) 60 5
      = some (e, n, renderNat (⌊((5 : ℚ) + 180) / 6⌋ + 1).toNat ++ [h]) := by
  have h1 : latlon_to_zone_number 60 5 = 32 := by
    unfold latlon_to_zone_number
    rw [if_pos (by norm_num)]
  have hletter : latitude_to_zone_letter 60 = 'V' := by
    unfold latitude_to_zone_letter pyInt
    rw [show (60 : ℚ) + 80 = 140 from by norm_num, if_neg (by norm_num),
      show ⌊(140 : ℚ)⌋ = 140 from by decide]
    decide
  have hconv : convert_dd_to_auto_utm (fun _ _ => ((0 : ℚ), (0 : ℚ))) 60 5
      = some (0, 0, "32N".toList) := by
    unfold convert_dd_to_auto_utm
    rw [if_pos (by norm_num)]
    show some (0, 0, renderNat (latlon_to_zone_number 60 5).toNat ++
      [if 'N' ≤ (latitude_to_zone_letter 60).toUpper then 'N' else 'S']) = _
    rw [h1, hletter]
    decide
  have h2 : (⌊((5 : ℚ) + 180) / 6⌋ + 1).toNat = 31 := by
    rw [show ((5 : ℚ) + 180) / 6 = ((185 : ℤ) : ℚ) / ((6 : ℕ) : ℚ) from
      by norm_num, Rat.floor_intCast_div_natCast]
    decide
  rintro ⟨e, n, h, heq⟩
  rw [hconv, h2, show renderNat 31 = ['3', '1'] from by decide] at heq
  simp only [Option.some.injEq, Prod.mk.injEq] at heq
  have hl := heq.2.2
  simp only [List.cons_append, List.nil_append, String.toList] at hl
  exact absurd (List.cons.inj (List.cons.inj hl).2).1 (by decide)

/-- C6 amended: for every accepted point outside the Norway band
(`56≤lat<64 ∧ 3≤lon<12`) and the Svalbard bands (`72≤lat≤84 ∧ 0≤lon<42`)
and away from the `lon = 180` wrap-around, the zone number in the label is
`floor((lon+180)/6)+1`. -/
theorem auto_utm_zone_c6_amended (utmProj : ℚ → ℚ → ℚ × ℚ) (lat lon : ℚ)
    (h1 : -80 ≤ lat) (h2 : lat ≤ 84) (h3 : -180 ≤ lon) (h4 : lon < 180)
    (hnor : ¬ (56 ≤ lat ∧ lat < 64 ∧ 3 ≤ lon ∧ lon < 12))
    (hsva : ¬ (72 ≤ lat ∧ lat ≤ 84 ∧ 0 ≤ lon ∧ lon < 42)) :
    ∃ e n h, convert_dd_to_auto_utm utmProj lat lon
      = some (e, n, renderNat (⌊(lon + 180) / 6⌋ + 1).toNat ++ [h]) := by
  have hz : latlon_to_zone_number lat lon = ⌊(lon + 180) / 6⌋ + 1 := by
    unfold latlon_to_zone_number
    rw [if_neg hnor,
      if_neg (fun hc => hsva ⟨hc.1, hc.2.1, hc.2.2.1, by linarith [hc.2.2.2]⟩),
      if_neg (fun hc => hsva ⟨hc.1, hc.2.1, hc.2.2.1, by linarith [hc.2.2.2]⟩),
      if_neg (fun hc => hsva ⟨hc.1, hc.2.1, hc.2.2.1, by linarith [hc.2.2.2]⟩),
      if_neg (fun hc => hsva ⟨hc.1, hc.2.1, hc.2.2.1, hc.2.2.2⟩)]
    have hnn : (0 : ℚ) ≤ (lon + 180) / 6 := by linarith
    have hp : pyInt ((lon + 180) / 6) = ⌊(lon + 180) / 6⌋ := by
      unfold pyInt
      rw [if_neg (not_lt.mpr hnn)]
    rw [hp]
    have hf0 : 0 ≤ ⌊(lon + 180) / 6⌋ := Int.floor_nonneg.mpr hnn
    have hf60 : ⌊(lon + 180) / 6⌋ < 60 := by
      rw [Int.floor_lt]
      push_cast
      linarith
    rw [Int.emod_eq_of_lt hf0 hf60]
  unfold convert_dd_to_auto_utm
  rw [if_pos ⟨h1, h2, h3, le_of_lt h4⟩]
  exact ⟨_, _, _, by rw [hz]⟩

/-- Witness for the amended C6 at `(lat, lon) = (-6, 106)`: zone
`floor(286/6)+1 = 48`. -/
theorem auto_utm_zone_c6_amended_witness :
    ∃ e n h, convert_dd_to_auto_utm (fun _ _ => ((0 : ℚ), (0 : ℚ))) (-6) 106
      = some (e, n, renderNat (⌊((106 : ℚ) + 180) / 6⌋ + 1).toNat ++ [h]) :=
  auto_utm_zone_c6_amended _ (-6) 106 (by norm_num) (by norm_num)
    (by norm_num) (by norm_num) (by intro hc; linarith [hc.1])
    (by intro hc; linarith [hc.1])

/-! ### Pipeline structure lemmas (shared by C7, C8, C9) -/

/-- The Stage-1 `dropna` pass: the per-row results of `process_coordinates`
are exactly the Stage-2 images of the rows whose both coordinates parsed. -/
theorem filterMap_stage (f : Row → Option ℚ × Option ℚ)
    (rows : List Row) (g : Row → ℚ → ℚ → ERow) :
    (rows.filterMap fun r =>
      match f r with
      | (some lon, some lat) => some (g r lon lat)
      | _ => none)
    = (rows.filter fun r => (f r).1.isSome && (f r).2.isSome).map
        fun r => g r ((f r).1.getD 0) ((f r).2.getD 0) := by
  induction rows with
  | nil => rfl
  | cons r rs ih =>
    rw [List.filterMap_cons, List.filter_cons]
    rcases hp : f r with ⟨o1, o2⟩
    cases o1 <;> cases o2 <;>
      simp [hp, ih]

/-- `process_coordinates` with a successful Stage-1 configuration, written
as drop-then-enrich. -/
theorem process_coordinates_eq (utmProj : ℚ → ℚ → ℚ × ℚ)
    (pyTrans : List Char → ℚ → ℚ → ℚ × ℚ) (rows : List Row)
    (repr : InputRepr) (datum zoneStr : List Char)
    (f : Row → Option ℚ × Option ℚ)
    (hf : stage1Fn pyTrans repr datum zoneStr = some f) :
    process_coordinates utmProj pyTrans rows repr datum zoneStr
      = (if (rows.filter fun r => (f r).1.isSome && (f r).2.isSome) = []
         then none
         else some ((rows.filter fun r => (f r).1.isSome && (f r).2.isSome).map
           fun r => enrichRow utmProj r.meta ((f r).1.getD 0) ((f r).2.getD 0))) := by
  unfold process_coordinates
  rw [hf]
  dsimp only
  rw [filterMap_stage f rows fun r lon lat => enrichRow utmProj r.meta lon lat]
  by_cases hs : (rows.filter fun r => (f r).1.isSome && (f r).2.isSome) = []
  · rw [if_pos hs, hs]
    rfl
  · rw [if_neg hs]
    have : ((rows.filter fun r => (f r).1.isSome && (f r).2.isSome).map
        fun r => enrichRow utmProj r.meta ((f r).1.getD 0) ((f r).2.getD 0)).isEmpty
        = false := by
      rw [List.isEmpty_eq_false_iff_exists_mem]
      rcases List.exists_mem_of_ne_nil _ hs with ⟨r, hr⟩
      exact ⟨_, List.mem_map_of_mem _ hr⟩
    rw [this]
    rfl

/-- The metadata of an enriched row is the input row's metadata. -/
theorem enrichRow_meta (utmProj : ℚ → ℚ → ℚ × ℚ)
    (meta : List (List Char × PyVal)) (lon lat : ℚ) :
    (enrichRow utmProj meta lon lat).meta = meta := by
  unfold enrichRow
  split <;> rfl

/-- The column names of an enriched row: metadata first, then the seven
computed columns. -/
theorem cells_names (e : ERow) :
    e.cells.map Prod.fst = e.meta.map Prod.fst ++ outputColNames := by
  simp [ERow.cells, outputColNames, List.map_map, Function.comp]

/-- A column name outside the computed seven is not overwritten. -/
theorem computedCell_not_output (e : ERow) (name : List Char) (v : PyVal)
    (h : name ∉ outputColNames) : computedCell e name v = v := by
  unfold computedCell
  simp only [outputColNames, List.mem_cons, List.not_mem_nil, or_false,
    not_or] at h
  obtain ⟨h1, h2, h3, h4, h5, h6, h7⟩ := h
  rw [if_neg h1, if_neg h2, if_neg h3, if_neg h4, if_neg h5, if_neg h6,
    if_neg h7]

/-- Every output cell named `lat_dd` — whether at the computed position or
at the position of a colliding metadata column — holds the computed
latitude. -/
theorem cells_lat_dd_value (e : ERow) (v : PyVal)
    (hv : ("lat_dd".toList, v) ∈ e.cells) : v = PyVal.num e.lat_dd := by
  unfold ERow.cells at hv
  rcases List.mem_append.mp hv with h | h
  · rcases List.mem_map.mp h with ⟨kv, hkv, heq⟩
    rw [Prod.mk.injEq] at heq
    obtain ⟨h1, h2⟩ := heq
    rw [← h2]
    unfold computedCell
    rw [if_pos h1]
  · simp only [List.mem_cons, List.not_mem_nil, or_false] at h
    rcases h with h | h | h | h | h | h | h
    · exact congrArg Prod.snd h
    all_goals (injection h with h1 h2; exact absurd h1 (by decide))

/-! ### C7: rows that fail to parse are dropped, never fatal -/

/-- C7: for every batch whose Stage-1 configuration succeeds, the rows whose
`x` or `y` fail to parse are dropped while the surviving rows are still
processed and returned in order, and when every row is dropped the batch
ends in the "no valid data" failure (`none`) instead of returning rows. -/
theorem process_drop_rows_c7 (utmProj : ℚ → ℚ → ℚ × ℚ)
    (pyTrans : List Char → ℚ → ℚ → ℚ × ℚ) (rows : List Row)
    (repr : InputRepr) (datum zoneStr : List Char)
    (f : Row → Option ℚ × Option ℚ)
    (hf : stage1Fn pyTrans repr datum zoneStr = some f) :
    ((rows.filter fun r => (f r).1.isSome && (f r).2.isSome) ≠ [] →
      process_coordinates utmProj pyTrans rows repr datum zoneStr
        = some ((rows.filter fun r => (f r).1.isSome && (f r).2.isSome).map
            fun r => enrichRow utmProj r.meta ((f r).1.getD 0) ((f r).2.getD 0))) ∧
    ((rows.filter fun r => (f r).1.isSome && (f r).2.isSome) = [] →
      process_coordinates utmProj pyTrans rows repr datum zoneStr = none) := by
  rw [process_coordinates_eq utmProj pyTrans rows repr datum zoneStr f hf]
  constructor
  · intro hne
    rw [if_neg hne]
  · intro he
    rw [if_pos he]

/-- Witness for C7: a 2-row DMS batch whose second row has unparsable `x`
keeps exactly the first row, and a batch whose only row is unparsable
fails with `none`. -/
theorem process_drop_rows_c7_witness :
    process_coordinates (fun _ _ => ((0 : ℚ), (0 : ℚ)))
        (fun _ _ _ => ((0 : ℚ), (0 : ℚ)))
        [⟨.str "10".toList, .str "20".toList, []⟩,
         ⟨.str "abc".toList, .str "20".toList, []⟩]
        .dms "WGS84".toList "".toList
      = some (([⟨.str "10".toList, .str "20".toList, []⟩,
           ⟨.str "abc".toList, .str "20".toList, []⟩].filter
             (fun r : Row => (parse_dms r.x).isSome && (parse_dms r.y).isSome)).map
          fun r => enrichRow (fun _ _ => ((0 : ℚ), (0 : ℚ))) r.meta
            ((parse_dms r.x).getD 0) ((parse_dms r.y).getD 0)) ∧
    process_coordinates (fun _ _ => ((0 : ℚ), (0 : ℚ)))
        (fun _ _ _ => ((0 : ℚ), (0 : ℚ)))
        [⟨.str "abc".toList, .str "20".toList, []⟩]
        .dms "WGS84".toList "".toList
      = none :=
  ⟨(process_drop_rows_c7 _ _ _ .dms _ _ _ rfl).1 (by decide),
   (process_drop_rows_c7 _ _ _ .dms _ _ _ rfl).2 (by decide)⟩

/-! ### C8: no aggregate dropped-row count is reported -/

/-- C8 counterexample: for a concrete 2-row batch whose second row has
unparsable `x`, the entire value handed back to the caller is
`some [one enriched row]` — a bare row list of length 1.  The return type
`Option (List ERow)` of the orchestrator carries no aggregate dropped-row
count anywhere, so no such count is reported alongside the surviving rows. -/
theorem process_no_count_c8_counterexample :
    ∃ out, process_coordinates (fun _ _ => ((0 : ℚ), (0 : ℚ)))
        (fun _ _ _ => ((0 : ℚ), (0 : ℚ)))
        [⟨.str "10".toList, .str "20".toList, []⟩,
         ⟨.str "abc".toList, .str "20".toList, []⟩]
        .dms "WGS84".toList "".toList
      = some out ∧ out.length = 1 :=
  ⟨_, rfl, rfl⟩

/-- C8 amended: no dropped-row count is computed or returned; the caller
receives only the surviving enriched rows, and the number of dropped rows
is recoverable only by comparing the input and output lengths. -/
theorem process_no_count_c8_amended (utmProj : ℚ → ℚ → ℚ × ℚ)
    (pyTrans : List Char → ℚ → ℚ → ℚ × ℚ) (rows : List Row)
    (repr : InputRepr) (datum zoneStr : List Char)
    (f : Row → Option ℚ × Option ℚ) (out : List ERow)
    (hf : stage1Fn pyTrans repr datum zoneStr = some f)
    (hout : process_coordinates utmProj pyTrans rows repr datum zoneStr
      = some out) :
    out.length
      + (rows.filter fun r => !((f r).1.isSome && (f r).2.isSome)).length
      = rows.length := by
  rw [process_coordinates_eq utmProj pyTrans rows repr datum zoneStr f hf]
    at hout
  split at hout
  · exact absurd hout (by simp)
  · have hlen : out.length
        = (rows.filter fun r => (f r).1.isSome && (f r).2.isSome).length := by
      have := (Option.some.inj hout).symm
      rw [this, List.length_map]
    rw [hlen]
    exact (List.length_eq_length_filter_add
      (fun r => (f r).1.isSome && (f r).2.isSome) (l := rows)).symm

/-- Witness for the amended C8 on the counterexample batch: one surviving
row plus one dropped row accounts for both input rows. -/
theorem process_no_count_c8_amended_witness :
    ∃ out, process_coordinates (fun _ _ => ((0 : ℚ), (0 : ℚ)))
        (fun _ _ _ => ((0 : ℚ), (0 : ℚ)))
        [⟨.str "10".toList, .str "20".toList, []⟩,
         ⟨.str "abc".toList, .str "20".toList, []⟩]
        .dms "WGS84".toList "".toList
      = some out ∧
      out.length + ([⟨.str "10".toList, .str "20".toList, []⟩,
         ⟨.str "abc".toList, .str "20".toList, ([] : List (List Char × PyVal))⟩].filter
          fun r : Row => !((parse_dms r.x).isSome && (parse_dms r.y).isSome)).length
        = 2 :=
  ⟨_, rfl, process_no_count_c8_amended (fun _ _ => ((0 : ℚ), (0 : ℚ)))
    (fun _ _ _ => ((0 : ℚ), (0 : ℚ)))
    [⟨.str "10".toList, .str "20".toList, []⟩,
     ⟨.str "abc".toList, .str "20".toList, []⟩]
    .dms "WGS84".toList "".toList
    (fun r => (parse_dms r.x, parse_dms r.y)) _ rfl rfl⟩

/-! ### C9: metadata columns pass through, x/y are consumed -/

/-- C9 counterexample: a metadata column named `lat_dd` is NOT preserved
verbatim: the assignment `df['lat_dd'] = …` (lines 150–151/157–158)
overwrites it with the computed latitude, so the input cell
`("lat_dd", "orig")` is absent from the output row. -/
theorem process_columns_c9_counterexample :
    ∃ out, process_coordinates (fun _ _ => ((0 : ℚ), (0 : ℚ)))
        (fun _ _ _ => ((0 : ℚ), (0 : ℚ)))
        [⟨.str "10".toList, .str "20".toList,
          [("lat_dd".toList, .str "orig".toList)]⟩]
        .dms "WGS84".toList "".toList
      = some out ∧
      out.length = 1 ∧
      ∀ e ∈ out, ("lat_dd".toList, PyVal.str "orig".toList) ∉ e.cells :=
  ⟨_, rfl, rfl, fun e _ hmem =>
    PyVal.noConfusion (cells_lat_dd_value e _ hmem)⟩

/-- C9 amended: every row returned by `process_coordinates` carries the
metadata column names of an input row, in input order and placed before
the computed columns; each metadata cell whose name is NOT one of the
seven computed column names is preserved verbatim (a colliding one is
overwritten by the `df['<name>'] = …` assignment); the consumed `x` and
`y` columns are absent from the output. -/
theorem process_columns_c9_amended (utmProj : ℚ → ℚ → ℚ × ℚ)
    (pyTrans : List Char → ℚ → ℚ → ℚ × ℚ) (rows : List Row)
    (repr : InputRepr) (datum zoneStr : List Char)
    (f : Row → Option ℚ × Option ℚ) (out : List ERow)
    (hf : stage1Fn pyTrans repr datum zoneStr = some f)
    (hout : process_coordinates utmProj pyTrans rows repr datum zoneStr
      = some out)
    (hmeta : ∀ r ∈ rows, "x".toList ∉ r.meta.map Prod.fst ∧
      "y".toList ∉ r.meta.map Prod.fst) :
    ∀ e ∈ out, (∃ r ∈ rows, e.meta = r.meta ∧
        ∀ kv ∈ r.meta, kv.1 ∉ outputColNames → kv ∈ e.cells) ∧
      e.cells.map Prod.fst = e.meta.map Prod.fst ++ outputColNames ∧
      "x".toList ∉ e.cells.map Prod.fst ∧
      "y".toList ∉ e.cells.map Prod.fst := by
  rw [process_coordinates_eq utmProj pyTrans rows repr datum zoneStr f hf]
    at hout
  split at hout
  · exact absurd hout (by simp)
  · intro e he
    rw [← Option.some.inj hout] at he
    rcases List.mem_map.mp he with ⟨r, hrfil, rfl⟩
    have hrrows : r ∈ rows := List.mem_of_mem_filter hrfil
    have hm := enrichRow_meta utmProj r.meta ((f r).1.getD 0) ((f r).2.getD 0)
    refine ⟨⟨r, hrrows, hm, ?_⟩, cells_names _, ?_, ?_⟩
    · intro kv hkv hnot
      unfold ERow.cells
      refine List.mem_append.mpr (Or.inl (List.mem_map.mpr ⟨kv, ?_, ?_⟩))
      · rw [hm]; exact hkv
      · rw [computedCell_not_output _ _ _ hnot]
    · rw [cells_names _]
      intro hx
      rcases List.mem_append.mp hx with h1 | h1
      · rw [hm] at h1
        exact (hmeta r hrrows).1 h1
      · exact absurd h1 (by decide)
    · rw [cells_names _]
      intro hy
      rcases List.mem_append.mp hy with h1 | h1
      · rw [hm] at h1
        exact (hmeta r hrrows).2 h1
      · exact absurd h1 (by decide)

/-- Witness for amended C9 on a 1-row batch with one metadata column
`id`. -/
theorem process_columns_c9_amended_witness :
    ∃ out, process_coordinates (fun _ _ => ((0 : ℚ), (0 : ℚ)))
        (fun _ _ _ => ((0 : ℚ), (0 : ℚ)))
        [⟨.str "10".toList, .str "20".toList, [("id".toList, .num 1)]⟩]
        .dms "WGS84".toList "".toList
      = some out ∧
      ∀ e ∈ out,
        (∃ r ∈ [(⟨.str "10".toList, .str "20".toList,
            [("id".toList, .num 1)]⟩ : Row)], e.meta = r.meta ∧
          ∀ kv ∈ r.meta, kv.1 ∉ outputColNames → kv ∈ e.cells) ∧
        e.cells.map Prod.fst = e.meta.map Prod.fst ++ outputColNames ∧
        "x".toList ∉ e.cells.map Prod.fst ∧
        "y".toList ∉ e.cells.map Prod.fst :=
  ⟨_, rfl, process_columns_c9_amended (fun _ _ => ((0 : ℚ), (0 : ℚ)))
    (fun _ _ _ => ((0 : ℚ), (0 : ℚ)))
    [⟨.str "10".toList, .str "20".toList, [("id".toList, .num 1)]⟩]
    .dms "WGS84".toList "".toList
    (fun r => (parse_dms r.x, parse_dms r.y)) _ rfl rfl (by decide)⟩

/-! ### C4: parse_dms behaviour -/

/-- C4: non-string input yields pd.NA; a string whose cleaned form splits
into 1–3 tokens that all parse yields `|deg| + min/60 + sec/3600`, negated
exactly when the normalised text contains `S` or `W` or the degree token
parses negative; a string with an unparsable token among the first three
yields pd.NA rather than an exception. -/
theorem parse_dms_c4 :
    (∀ v : PyVal, (∀ s, v ≠ PyVal.str s) → parse_dms v = none) ∧
    (∀ (s : List Char) (q0 q1 q2 : ℚ),
      1 ≤ (cleanedTokens s).length → (cleanedTokens s).length ≤ 3 →
      tokVal (cleanedTokens s) 0 = some q0 →
      tokVal (cleanedTokens s) 1 = some q1 →
      tokVal (cleanedTokens s) 2 = some q2 →
      parse_dms (PyVal.str s)
        = some (if 'S' ∈ normalizeText s ∨ 'W' ∈ normalizeText s ∨ q0 < 0
            then -(|q0| + q1 / 60 + q2 / 3600)
            else |q0| + q1 / 60 + q2 / 3600)) ∧
    (∀ s : List Char,
      tokVal (cleanedTokens s) 0 = none ∨ tokVal (cleanedTokens s) 1 = none ∨
        tokVal (cleanedTokens s) 2 = none →
      parse_dms (PyVal.str s) = none) := by
  refine ⟨fun v hv => ?_, fun s q0 q1 q2 _ _ h0 h1 h2 => ?_, fun s h => ?_⟩
  · cases v with
    | str s => exact absurd rfl (hv s)
    | num q => rfl
    | na => rfl
  · show parse_dms_str s = _
    unfold parse_dms_str
    dsimp only
    rw [h0, h1, h2]
  · show parse_dms_str s = none
    unfold parse_dms_str
    dsimp only
    rcases h with h | h | h
    · rw [h]
    · rw [h]
      cases htok : tokVal (cleanedTokens s) 0 <;> rfl
    · rw [h]
      cases htok : tokVal (cleanedTokens s) 0
      · rfl
      · cases htok1 : tokVal (cleanedTokens s) 1 <;> rfl

/-- Witness for C4 at the spec example `"6 10 30 LS"` (and the non-string
cell `pd.NA`). -/
theorem parse_dms_c4_witness :
    parse_dms PyVal.na = none ∧
    parse_dms (PyVal.str "6 10 30 LS".toList)
      = some (if 'S' ∈ normalizeText "6 10 30 LS".toList ∨
            'W' ∈ normalizeText "6 10 30 LS".toList ∨ (6 : ℚ) < 0
          then -(|(6 : ℚ)| + 10 / 60 + 30 / 3600)
          else |(6 : ℚ)| + 10 / 60 + 30 / 3600) ∧
    parse_dms (PyVal.str "abc".toList) = none :=
  ⟨parse_dms_c4.1 PyVal.na (fun s h => PyVal.noConfusion h),
   parse_dms_c4.2.1 "6 10 30 LS".toList 6 10 30 (by decide) (by decide)
     (by decide) (by decide) (by decide),
   parse_dms_c4.2.2 "abc".toList (Or.inl (by decide))⟩

/-! ### C10: the minus sign on a zero degree token is lost -/

/-- C10 counterexample: `"-0 -30 0"` has degree token `"-0"` (a
negative-zero form, value 0) and no S/W marker, yet `parse_dms` returns
the negative value `-1/2`: a negative minute token defeats the claimed
universal non-negativity. -/
theorem parse_dms_negzero_c10_counterexample :
    (cleanedTokens "-0 -30 0".toList).getD 0 [] = "-0".toList ∧
    ("-0".toList).head? = some '-' ∧
    parsePyFloat "-0".toList = some 0 ∧
    'S' ∉ normalizeText "-0 -30 0".toList ∧
    'W' ∉ normalizeText "-0 -30 0".toList ∧
    parse_dms (PyVal.str "-0 -30 0".toList) = some (-(1 / 2) : ℚ) := by
  refine ⟨by decide, by decide, by decide, by decide, by decide, ?_⟩
  show parse_dms_str "-0 -30 0".toList = _
  unfold parse_dms_str
  dsimp only
  rw [show tokVal (cleanedTokens "-0 -30 0".toList) 0 = some 0 from by decide,
    show tokVal (cleanedTokens "-0 -30 0".toList) 1 = some (-30) from by decide,
    show tokVal (cleanedTokens "-0 -30 0".toList) 2 = some 0 from by decide]
  dsimp only
  rw [if_neg (by decide)]
  congr 1
  norm_num

/-- C10 amended: for every DMS string whose degree token is a negative-zero
form, which contains no S/W marker, and whose minute and second token
values are non-negative, `parse_dms` returns a non-negative value (the
minus sign on the zero degree token is lost). -/
theorem parse_dms_negzero_c10_amended (s t : List Char)
    (ts : List (List Char)) (q1 q2 : ℚ)
    (htok : cleanedTokens s = t :: ts)
    (_hneg : t.head? = some '-')
    (h0 : parsePyFloat t = some 0)
    (hS : 'S' ∉ normalizeText s) (hW : 'W' ∉ normalizeText s)
    (h1 : tokVal (cleanedTokens s) 1 = some q1) (hq1 : 0 ≤ q1)
    (h2 : tokVal (cleanedTokens s) 2 = some q2) (hq2 : 0 ≤ q2) :
    ∃ q, parse_dms (PyVal.str s) = some q ∧ 0 ≤ q := by
  have h0' : tokVal (cleanedTokens s) 0 = some 0 := by
    unfold tokVal
    rw [htok]
    simp only [List.length_cons, List.getD]
    rw [if_pos (by omega)]
    simpa using h0
  show ∃ q, parse_dms_str s = some q ∧ 0 ≤ q
  unfold parse_dms_str
  dsimp only
  rw [h0', h1, h2]
  dsimp only
  rw [if_neg (by simp [hS, hW])]
  refine ⟨_, rfl, ?_⟩
  have : |(0 : ℚ)| = 0 := abs_zero
  rw [this]
  positivity

/-- Witness for the amended C10 at `"-0 30 0"` (which parses to `+1/2`,
not `-1/2`). -/
theorem parse_dms_negzero_c10_amended_witness :
    ∃ q, parse_dms (PyVal.str "-0 30 0".toList) = some q ∧ 0 ≤ q :=
  parse_dms_negzero_c10_amended "-0 30 0".toList "-0".toList
    ["30".toList, "0".toList] 30 0 (by decide) (by decide) (by decide)
    (by decide) (by decide) (by decide) (by norm_num) (by decide) (by norm_num)

/-! ### Unfolding equations for the fuel-indexed scanners -/

theorem replaceGoF_irrel (p : Char) (ps rep : List Char) (f1 : ℕ) :
    ∀ (f2 : ℕ) (s : List Char), s.length ≤ f1 → s.length ≤ f2 →
      replaceGoF p ps rep f1 s = replaceGoF p ps rep f2 s := by
  induction f1 with
  | zero =>
    intro f2 s h1 h2
    have : s = [] := List.eq_nil_of_length_eq_zero (by omega)
    subst this
    cases f2 <;> rfl
  | succ fu ih =>
    intro f2 s h1 h2
    cases s with
    | nil => cases f2 <;> rfl
    | cons c cs =>
      cases f2 with
      | zero => simp at h2
      | succ f2' =>
        simp only [replaceGoF]
        have hd : (cs.drop ps.length).length ≤ cs.length := by
          simp only [List.length_drop]; omega
        split
        · rw [ih f2' (cs.drop ps.length) (by simp at h1; omega)
            (by simp at h2; omega)]
        · rw [ih f2' cs (by simp at h1; omega) (by simp at h2; omega)]

theorem replaceGo_cons (p : Char) (ps rep : List Char) (c : Char)
    (cs : List Char) :
    replaceGo p ps rep (c :: cs)
      = if startsWithL (p :: ps) (c :: cs) then
          rep ++ replaceGo p ps rep (cs.drop ps.length)
        else c :: replaceGo p ps rep cs := by
  show replaceGoF p ps rep (c :: cs).length (c :: cs) = _
  simp only [List.length_cons, replaceGoF]
  split
  · rw [replaceGoF_irrel p ps rep cs.length (cs.drop ps.length).length
      (cs.drop ps.length) (by simp only [List.length_drop]; omega) (le_refl _)]
    rfl
  · rfl

theorem splitWsF_irrel (f1 : ℕ) : ∀ (f2 : ℕ) (s acc : List Char),
    s.length ≤ f1 → s.length ≤ f2 → splitWsF f1 s acc = splitWsF f2 s acc := by
  induction f1 with
  | zero =>
    intro f2 s acc h1 h2
    have : s = [] := List.eq_nil_of_length_eq_zero (by omega)
    subst this
    cases f2 <;> rfl
  | succ fu ih =>
    intro f2 s acc h1 h2
    cases s with
    | nil => cases f2 <;> rfl
    | cons c cs =>
      cases f2 with
      | zero => simp at h2
      | succ f2' =>
        simp only [splitWsF]
        have hd := (List.dropWhile_sublist (l := cs) (p := isSpaceC)).length_le
        split
        · rw [ih f2' (cs.dropWhile isSpaceC) [] (by simp at h1; omega)
            (by simp at h2; omega)]
        · rw [ih f2' cs (c :: acc) (by simp at h1; omega)
            (by simp at h2; omega)]

theorem splitWsAux_cons (c : Char) (cs acc : List Char) :
    splitWsAux (c :: cs) acc
      = if isSpaceC c then acc.reverse :: splitWsAux (cs.dropWhile isSpaceC) []
        else splitWsAux cs (c :: acc) := by
  show splitWsF (c :: cs).length (c :: cs) acc = _
  simp only [List.length_cons, splitWsF]
  have hd := (List.dropWhile_sublist (l := cs) (p := isSpaceC)).length_le
  split
  · rw [splitWsF_irrel cs.length (cs.dropWhile isSpaceC).length
      (cs.dropWhile isSpaceC) [] (by omega) (le_refl _)]
    rfl
  · rfl

/-! ### The ten digit characters as a closed class -/

/-- Bool-level membership in the ten ASCII digit characters. -/
def isDigit10 (c : Char) : Bool :=
  c = '0' || c = '1' || c = '2' || c = '3' || c = '4' ||
  c = '5' || c = '6' || c = '7' || c = '8' || c = '9'

theorem isDigit10_digitChar (n : ℕ) : isDigit10 (digitChar n) = true := by
  unfold digitChar
  split <;> decide

theorem isDigit10_isDigitC (c : Char) (h : isDigit10 c = true) :
    isDigitC c = true := by
  simp only [isDigit10, Bool.or_eq_true, decide_eq_true_eq] at h
  rcases h with ((((((((h | h) | h) | h) | h) | h) | h) | h) | h) | h <;>
    (subst h; decide)

theorem isDigit10_toUpper (c : Char) (h : isDigit10 c = true) :
    c.toUpper = c := by
  simp only [isDigit10, Bool.or_eq_true, decide_eq_true_eq] at h
  rcases h with ((((((((h | h) | h) | h) | h) | h) | h) | h) | h) | h <;>
    (subst h; decide)

theorem isDigit10_allowed (c : Char) (h : isDigit10 c = true) :
    allowedChar c = true := by
  simp only [isDigit10, Bool.or_eq_true, decide_eq_true_eq] at h
  rcases h with ((((((((h | h) | h) | h) | h) | h) | h) | h) | h) | h <;>
    (subst h; decide)

theorem isDigit10_not_special (c : Char) (h : isDigit10 c = true) :
    c ≠ 'L' ∧ c ≠ 'U' ∧ c ≠ 'S' ∧ c ≠ 'B' ∧ c ≠ 'T' ∧ c ≠ 'W' ∧
      isSpaceC c = false := by
  simp only [isDigit10, Bool.or_eq_true, decide_eq_true_eq] at h
  rcases h with ((((((((h | h) | h) | h) | h) | h) | h) | h) | h) | h <;>
    (subst h; exact ⟨by decide, by decide, by decide, by decide, by decide,
      by decide, by decide⟩)

theorem renderNat_digit10 (n : ℕ) : ∀ c ∈ renderNat n, isDigit10 c = true := by
  induction n using Nat.strong_induction_on with
  | _ n ih =>
    rw [renderNat_eq]
    split
    · simp [isDigit10_digitChar]
    · intro c hc
      rcases List.mem_append.mp hc with h1 | h1
      · exact ih (n / 10) (Nat.div_lt_self (by omega) (by omega)) c h1
      · simp only [List.mem_singleton] at h1
        subst h1
        exact isDigit10_digitChar _

/-- Digit-or-dot class for the characters of a rendered float. -/
def isDigit10Dot (c : Char) : Bool := isDigit10 c || c = '.'

theorem renderFloat4_digit10dot (k : ℕ) :
    ∀ c ∈ renderFloat4 k, isDigit10Dot c = true := by
  intro c hc
  simp only [renderFloat4, List.mem_append, List.mem_cons] at hc
  rcases hc with h | h | h
  · simp [isDigit10Dot, renderNat_digit10 _ c h]
  · simp [isDigit10Dot, h]
  · have hd10 : isDigit10 c = true := by
      revert h
      split
      · intro h
        simp only [List.mem_singleton] at h
        simp [h, isDigit10]
      · intro h
        have hall : ∀ d ∈ fracDigitsRaw (k % 10000), isDigit10 d = true := by
          intro d hd
          simp only [fracDigitsRaw, List.mem_cons, List.mem_singleton,
            List.not_mem_nil, or_false] at hd
          rcases hd with h1 | h1 | h1 | h1 <;>
            (subst h1; exact isDigit10_digitChar _)
        exact dropTrailingZeros_sub _ hall c h
    simp [isDigit10Dot, hd10]

theorem isDigit10Dot_toUpper (c : Char) (h : isDigit10Dot c = true) :
    c.toUpper = c := by
  rcases Bool.or_eq_true_iff.mp h with h1 | h1
  · exact isDigit10_toUpper c h1
  · simp only [decide_eq_true_eq] at h1
    subst h1; decide

theorem isDigit10Dot_allowed (c : Char) (h : isDigit10Dot c = true) :
    allowedChar c = true := by
  rcases Bool.or_eq_true_iff.mp h with h1 | h1
  · exact isDigit10_allowed c h1
  · simp only [decide_eq_true_eq] at h1
    subst h1; decide

theorem isDigit10Dot_not_special (c : Char) (h : isDigit10Dot c = true) :
    c ≠ 'L' ∧ c ≠ 'U' ∧ c ≠ 'S' ∧ c ≠ 'B' ∧ c ≠ 'T' ∧ c ≠ 'W' ∧
      isSpaceC c = false := by
  rcases Bool.or_eq_true_iff.mp h with h1 | h1
  · exact isDigit10_not_special c h1
  · simp only [decide_eq_true_eq] at h1
    subst h1
    exact ⟨by decide, by decide, by decide, by decide, by decide, by decide,
      by decide⟩

/-! ### String-pipeline lemmas for the formatted DMS string -/

theorem replaceGo_append (p : Char) (ps rep xs ys : List Char)
    (h : ∀ c ∈ xs, c ≠ p) :
    replaceGo p ps rep (xs ++ ys) = xs ++ replaceGo p ps rep ys := by
  induction xs with
  | nil => rfl
  | cons x xs ih =>
    rw [List.cons_append, replaceGo_cons]
    have hsw : startsWithL (p :: ps) (x :: (xs ++ ys)) = false := by
      simp only [startsWithL, Bool.and_eq_false_iff]
      left
      simp only [decide_eq_false_iff_not]
      exact fun hpx => h x (by simp) hpx.symm
    rw [hsw]
    simp only [Bool.false_eq_true, if_false, List.cons_append, List.cons.injEq,
      true_and]
    exact ih fun c hc => h c (by simp [hc])

theorem replaceL_append (pat rep xs ys : List Char)
    (h : ∀ c ∈ xs, ∀ rest, pat ≠ c :: rest) :
    replaceL pat rep (xs ++ ys) = xs ++ replaceL pat rep ys := by
  cases pat with
  | nil => rfl
  | cons p ps =>
    exact replaceGo_append p ps rep xs ys fun c hc hcp =>
      h c hc ps (by rw [hcp])

theorem replaceChain_append (xs ys : List Char)
    (h : ∀ c ∈ xs, c ≠ 'L' ∧ c ≠ 'U' ∧ c ≠ 'S' ∧ c ≠ 'B' ∧ c ≠ 'T') :
    replaceChain (xs ++ ys) = xs ++ replaceChain ys := by
  unfold replaceChain
  rw [
    replaceL_append _ _ _ _ (fun c hc rest hr => (h c hc).1 (by
      have := congrArg (List.head?) hr; simp at this; exact this.symm)),
    replaceL_append _ _ _ _ (fun c hc rest hr => (h c hc).1 (by
      have := congrArg (List.head?) hr; simp at this; exact this.symm)),
    replaceL_append _ _ _ _ (fun c hc rest hr => (h c hc).2.1 (by
      have := congrArg (List.head?) hr; simp at this; exact this.symm)),
    replaceL_append _ _ _ _ (fun c hc rest hr => (h c hc).2.2.1 (by
      have := congrArg (List.head?) hr; simp at this; exact this.symm)),
    replaceL_append _ _ _ _ (fun c hc rest hr => (h c hc).2.2.2.1 (by
      have := congrArg (List.head?) hr; simp at this; exact this.symm)),
    replaceL_append _ _ _ _ (fun c hc rest hr => (h c hc).2.2.2.1 (by
      have := congrArg (List.head?) hr; simp at this; exact this.symm)),
    replaceL_append _ _ _ _ (fun c hc rest hr => (h c hc).2.2.2.2 (by
      have := congrArg (List.head?) hr; simp at this; exact this.symm)),
    replaceL_append _ _ _ _ (fun c hc rest hr => (h c hc).2.2.2.1 (by
      have := congrArg (List.head?) hr; simp at this; exact this.symm))]

theorem dropWhile_eq_self_of_head {p : Char → Bool} (l : List Char) (c : Char)
    (hh : l.head? = some c) (hc : p c = false) : l.dropWhile p = l := by
  cases l with
  | nil => rfl
  | cons a l =>
    simp only [List.head?_cons, Option.some.injEq] at hh
    subst hh
    rw [List.dropWhile_cons, hc]
    simp

theorem stripL_eq_self (l : List Char) (c d : Char)
    (hh : l.head? = some c) (hc : isSpaceC c = false)
    (hl : l.getLast? = some d) (hd : isSpaceC d = false) : stripL l = l := by
  unfold stripL
  rw [dropWhile_eq_self_of_head l c hh hc,
    dropWhile_eq_self_of_head l.reverse d (by rw [List.head?_reverse]; exact hl)
      hd, List.reverse_reverse]

theorem stripL_append_spaces (l : List Char) (c d : Char)
    (hh : l.head? = some c) (hc : isSpaceC c = false)
    (hl : l.getLast? = some d) (hd : isSpaceC d = false) :
    stripL (l ++ [' ', ' ']) = l := by
  unfold stripL
  have h1 : (l ++ [' ', ' ']).head? = some c := by
    cases l with
    | nil => simp at hh
    | cons a l => simpa using hh
  rw [dropWhile_eq_self_of_head _ c h1 hc]
  have h2 : (l ++ [' ', ' ']).reverse = ' ' :: ' ' :: l.reverse := by simp
  rw [h2, List.dropWhile_cons, List.dropWhile_cons]
  simp only [show isSpaceC ' ' = true from rfl, if_true]
  rw [dropWhile_eq_self_of_head l.reverse d
    (by rw [List.head?_reverse]; exact hl) hd, List.reverse_reverse]

theorem upperL_append (xs ys : List Char) :
    upperL (xs ++ ys) = upperL xs ++ upperL ys := by
  simp [upperL]

theorem upperL_eq_self (l : List Char) (h : ∀ c ∈ l, c.toUpper = c) :
    upperL l = l := by
  induction l with
  | nil => rfl
  | cons c cs ih =>
    simp only [upperL, List.map_cons, h c (by simp)]
    rw [List.cons.injEq]
    exact ⟨rfl, ih fun d hd => h d (by simp [hd])⟩

theorem splitWsAux_token (t : List Char) (ht : ∀ c ∈ t, isSpaceC c = false) :
    ∀ (cs acc : List Char),
      splitWsAux (t ++ cs) acc = splitWsAux cs (t.reverse ++ acc) := by
  induction t with
  | nil => intro cs acc; simp
  | cons c t ih =>
    intro cs acc
    rw [List.cons_append, splitWsAux_cons, ht c (by simp)]
    simp only [Bool.false_eq_true, if_false]
    rw [ih (fun d hd => ht d (by simp [hd])) cs (c :: acc)]
    simp

theorem splitWsPy_three_tokens (t1 t2 t3 : List Char)
    (h1 : ∀ c ∈ t1, isSpaceC c = false) (h2 : ∀ c ∈ t2, isSpaceC c = false)
    (h3 : ∀ c ∈ t3, isSpaceC c = false)
    (c2 c3 : Char) (hh2 : t2.head? = some c2) (hh3 : t3.head? = some c3) :
    splitWsPy (t1 ++ ' ' :: (t2 ++ ' ' :: t3)) = [t1, t2, t3] := by
  unfold splitWsPy
  rw [splitWsAux_token t1 h1, splitWsAux_cons]
  simp only [show isSpaceC ' ' = true from rfl, if_true, List.append_nil,
    List.reverse_reverse]
  rw [dropWhile_eq_self_of_head _ c2 (by cases t2 with
    | nil => simp at hh2
    | cons a l => simpa using hh2) (h2 c2 (List.mem_of_mem_head? hh2)),
    splitWsAux_token t2 h2, splitWsAux_cons]
  simp only [show isSpaceC ' ' = true from rfl, if_true, List.append_nil,
    List.reverse_reverse]
  rw [dropWhile_eq_self_of_head _ c3 hh3 (h3 c3 (List.mem_of_mem_head? hh3))]
  have : splitWsAux t3 [] = [t3] := by
    have := splitWsAux_token t3 h3 [] []
    simp only [List.append_nil] at this
    rw [this]
    show [t3.reverse.reverse] = [t3]
    simp
  rw [this]

theorem renderNat_head (n : ℕ) :
    ∃ c, (renderNat n).head? = some c ∧ isDigit10 c = true := by
  cases h : renderNat n with
  | nil => exact absurd h (renderNat_ne_nil n)
  | cons a l => exact ⟨a, by simp, renderNat_digit10 n a (by rw [h]; simp)⟩

theorem renderNat_last (n : ℕ) :
    ∃ c, (renderNat n).getLast? = some c ∧ isDigit10 c = true := by
  have hne := renderNat_ne_nil n
  exact ⟨(renderNat n).getLast hne, List.getLast?_eq_getLast_of_ne_nil hne,
    renderNat_digit10 n _ (List.getLast_mem hne)⟩

theorem renderFloat4_head (k : ℕ) :
    ∃ c, (renderFloat4 k).head? = some c ∧ isDigit10 c = true := by
  obtain ⟨c, hc, hd⟩ := renderNat_head (k / 10000)
  refine ⟨c, ?_, hd⟩
  unfold renderFloat4
  rw [List.head?_append_of_ne_nil _ (renderNat_ne_nil _)]
  exact hc

theorem renderFloat4_frac_digits (k : ℕ) :
    ∀ c ∈ (if (dropTrailingZeros (fracDigitsRaw (k % 10000))).isEmpty
      then ['0'] else dropTrailingZeros (fracDigitsRaw (k % 10000))),
      isDigit10 c = true := by
  split
  · intro c hc
    simp only [List.mem_singleton] at hc
    simp [hc, isDigit10]
  · intro c hc
    have hall : ∀ d ∈ fracDigitsRaw (k % 10000), isDigit10 d = true := by
      intro d hd
      simp only [fracDigitsRaw, List.mem_cons, List.mem_singleton,
        List.not_mem_nil, or_false] at hd
      rcases hd with h1 | h1 | h1 | h1 <;> (subst h1; exact isDigit10_digitChar _)
    exact dropTrailingZeros_sub _ hall c hc

theorem renderFloat4_last (k : ℕ) :
    ∃ c, (renderFloat4 k).getLast? = some c ∧ isDigit10 c = true := by
  unfold renderFloat4
  have hne : (if (dropTrailingZeros (fracDigitsRaw (k % 10000))).isEmpty
      then ['0'] else dropTrailingZeros (fracDigitsRaw (k % 10000))) ≠ [] := by
    split
    · simp
    · rename_i h
      intro hnil
      exact h (by rw [hnil]; rfl)
  set fr := if (dropTrailingZeros (fracDigitsRaw (k % 10000))).isEmpty
      then ['0'] else dropTrailingZeros (fracDigitsRaw (k % 10000)) with hfr
  refine ⟨fr.getLast hne, ?_, renderFloat4_frac_digits k _ (hfr ▸ List.getLast_mem hne)⟩
  rw [List.getLast?_append_cons,
    show ('.' :: fr) = ['.'] ++ fr from rfl,
    List.getLast?_append_of_ne_nil _ hne,
    List.getLast?_eq_getLast_of_ne_nil hne]

/-- Parsing a string of the exact shape produced by `dd_to_dms`: the three
numeric tokens are recovered and the sign is decided by the S/W letters of
the normalised direction suffix. -/
theorem parse_dms_format (D M k : ℕ) (dir rdir : List Char)
    (hdu : ∀ c ∈ dir, c.toUpper = c)
    (lc : Char) (hdl : dir.getLast? = some lc) (hlc : isSpaceC lc = false)
    (hrc : replaceChain dir = rdir)
    (hfil : rdir.filter allowedChar = [' ']) :
    parse_dms_str (renderNat D ++ degSign ++ ' ' :: renderNat M ++ '\'' :: ' '
        :: renderFloat4 k ++ '"' :: ' ' :: dir)
      = some (if 'S' ∈ rdir ∨ 'W' ∈ rdir
          then -((D : ℚ) + (M : ℚ) / 60 + (k : ℚ) / 10000 / 3600)
          else (D : ℚ) + (M : ℚ) / 60 + (k : ℚ) / 10000 / 3600) := by
  obtain ⟨cD, hcD, hcDd⟩ := renderNat_head D
  obtain ⟨cM, hcM, hcMd⟩ := renderNat_head M
  obtain ⟨cS4, hcS4, hcS4d⟩ := renderFloat4_head k
  obtain ⟨cL, hcL, hcLd⟩ := renderFloat4_last k
  have hdirne : dir ≠ [] := by
    intro h
    rw [h] at hdl
    simp at hdl
  have hdig : ∀ c : Char, isDigit10 c = true →
      c.toUpper = c ∧ c ≠ 'L' ∧ c ≠ 'U' ∧ c ≠ 'S' ∧ c ≠ 'B' ∧ c ≠ 'T' ∧
        c ≠ 'W' := by
    intro c h
    obtain ⟨a1, a2, a3, a4, a5, a6, _⟩ := isDigit10_not_special c h
    exact ⟨isDigit10_toUpper c h, a1, a2, a3, a4, a5, a6⟩
  have hdot : ∀ c : Char, isDigit10Dot c = true →
      c.toUpper = c ∧ c ≠ 'L' ∧ c ≠ 'U' ∧ c ≠ 'S' ∧ c ≠ 'B' ∧ c ≠ 'T' ∧
        c ≠ 'W' := by
    intro c h
    obtain ⟨a1, a2, a3, a4, a5, a6, _⟩ := isDigit10Dot_not_special c h
    exact ⟨isDigit10Dot_toUpper c h, a1, a2, a3, a4, a5, a6⟩
  set P : List Char := renderNat D ++ degSign ++ ' ' :: renderNat M
      ++ '\'' :: ' ' :: renderFloat4 k ++ '"' :: [' '] with hP
  have hsplit : renderNat D ++ degSign ++ ' ' :: renderNat M ++ '\'' :: ' '
      :: renderFloat4 k ++ '"' :: ' ' :: dir = P ++ dir := by
    rw [hP]
    simp
  have hPchar : ∀ c ∈ P, c.toUpper = c ∧ c ≠ 'L' ∧ c ≠ 'U' ∧ c ≠ 'S' ∧
      c ≠ 'B' ∧ c ≠ 'T' ∧ c ≠ 'W' := by
    rw [hP]
    refine List.forall_mem_append.mpr ⟨?_, ?_⟩
    · refine List.forall_mem_append.mpr ⟨?_, ?_⟩
      · refine List.forall_mem_append.mpr ⟨?_, ?_⟩
        · refine List.forall_mem_append.mpr
            ⟨fun c hc => hdig c (renderNat_digit10 D c hc), ?_⟩
          intro c hc
          fin_cases hc <;> exact (by decide)
        · refine List.forall_mem_cons.mpr
            ⟨by decide, fun c hc => hdig c (renderNat_digit10 M c hc)⟩
      · refine List.forall_mem_cons.mpr ⟨by decide, ?_⟩
        exact List.forall_mem_cons.mpr
          ⟨by decide, fun c hc => hdot c (renderFloat4_digit10dot k c hc)⟩
    · intro c hc
      fin_cases hc <;> exact (by decide)
  have hX1ne : renderNat D ++ degSign ≠ [] := by
    intro h
    exact renderNat_ne_nil D (List.append_eq_nil.mp h).1
  have hX2ne : renderNat D ++ degSign ++ ' ' :: renderNat M ≠ [] := by
    intro h
    exact hX1ne (List.append_eq_nil.mp h).1
  have hX3ne : renderNat D ++ degSign ++ ' ' :: renderNat M
      ++ '\'' :: ' ' :: renderFloat4 k ≠ [] := by
    intro h
    exact hX2ne (List.append_eq_nil.mp h).1
  have hPne : P ≠ [] := by
    rw [hP]
    intro h
    exact hX3ne (List.append_eq_nil.mp h).1
  have hPhead : P.head? = some cD := by
    rw [hP, List.head?_append_of_ne_nil _ hX3ne,
      List.head?_append_of_ne_nil _ hX2ne,
      List.head?_append_of_ne_nil _ hX1ne,
      List.head?_append_of_ne_nil _ (renderNat_ne_nil D)]
    exact hcD
  have hupper : upperL (P ++ dir) = P ++ dir := by
    rw [upperL_append, upperL_eq_self P fun c hc => (hPchar c hc).1,
      upperL_eq_self dir hdu]
  have hstrip : stripL (P ++ dir) = P ++ dir := by
    refine stripL_eq_self _ cD lc ?_ ?_ ?_ hlc
    · rw [List.head?_append_of_ne_nil _ hPne]
      exact hPhead
    · exact (isDigit10_not_special cD hcDd).2.2.2.2.2.2
    · rw [List.getLast?_append_of_ne_nil _ hdirne]
      exact hdl
  have hnorm : normalizeText (P ++ dir) = P ++ rdir := by
    unfold normalizeText
    rw [hupper, hstrip,
      replaceChain_append P dir fun c hc =>
        ⟨(hPchar c hc).2.1, (hPchar c hc).2.2.1, (hPchar c hc).2.2.2.1,
         (hPchar c hc).2.2.2.2.1, (hPchar c hc).2.2.2.2.2.1⟩, hrc]
  have hmemS : ('S' ∈ normalizeText (P ++ dir)) ↔ 'S' ∈ rdir := by
    rw [hnorm, List.mem_append]
    constructor
    · rintro (h | h)
      · exact absurd rfl (hPchar 'S' h).2.2.2.1
      · exact h
    · exact Or.inr
  have hmemW : ('W' ∈ normalizeText (P ++ dir)) ↔ 'W' ∈ rdir := by
    rw [hnorm, List.mem_append]
    constructor
    · rintro (h | h)
      · exact absurd rfl (hPchar 'W' h).2.2.2.2.2.2
      · exact h
    · exact Or.inr
  have fD : List.filter allowedChar (renderNat D) = renderNat D :=
    List.filter_eq_self.mpr fun c hc =>
      isDigit10_allowed c (renderNat_digit10 D c hc)
  have fM : List.filter allowedChar (renderNat M) = renderNat M :=
    List.filter_eq_self.mpr fun c hc =>
      isDigit10_allowed c (renderNat_digit10 M c hc)
  have fS : List.filter allowedChar (renderFloat4 k) = renderFloat4 k :=
    List.filter_eq_self.mpr fun c hc =>
      isDigit10Dot_allowed c (renderFloat4_digit10dot k c hc)
  have hclean : (P ++ rdir).filter allowedChar
      = (renderNat D ++ ' ' :: (renderNat M ++ ' ' :: renderFloat4 k))
          ++ [' ', ' '] := by
    rw [hP]
    simp only [List.filter_append, List.filter_cons, fD, fM, fS, hfil,
      show allowedChar ' ' = true from rfl,
      show allowedChar '\'' = false from rfl,
      show allowedChar '"' = false from rfl,
      show List.filter allowedChar degSign = [] from rfl,
      if_true, Bool.false_eq_true, if_false]
    simp
  have hT : ((renderNat D ++ ' ' :: (renderNat M ++ ' ' :: renderFloat4 k))).getLast?
      = some cL := by
    rw [List.getLast?_append_cons, show (' ' :: (renderNat M ++ ' ' ::
        renderFloat4 k)) = [' '] ++ (renderNat M ++ ' ' :: renderFloat4 k)
        from rfl,
      List.getLast?_append_of_ne_nil _ (by
        intro h
        rcases List.append_eq_nil.mp h with ⟨h1, -⟩
        exact renderNat_ne_nil M h1),
      List.getLast?_append_cons, show (' ' :: renderFloat4 k)
        = [' '] ++ renderFloat4 k from rfl,
      List.getLast?_append_of_ne_nil _ (by
        intro h
        rcases (renderFloat4_head k) with ⟨c, hc, -⟩
        rw [h] at hc
        simp at hc)]
    exact hcL
  have htok : cleanedTokens (P ++ dir)
      = [renderNat D, renderNat M, renderFloat4 k] := by
    unfold cleanedTokens
    rw [hnorm] -- changes normalizeText occurrence
    rw [hclean, stripL_append_spaces _ cD cL
        (by rw [List.head?_append_of_ne_nil _ (renderNat_ne_nil D)]; exact hcD)
        ((isDigit10_not_special cD hcDd).2.2.2.2.2.2) hT
        ((isDigit10_not_special cL hcLd).2.2.2.2.2.2)]
    exact splitWsPy_three_tokens (renderNat D) (renderNat M) (renderFloat4 k)
      (fun c hc => (isDigit10_not_special c (renderNat_digit10 D c hc)).2.2.2.2.2.2)
      (fun c hc => (isDigit10_not_special c (renderNat_digit10 M c hc)).2.2.2.2.2.2)
      (fun c hc => (isDigit10Dot_not_special c (renderFloat4_digit10dot k c hc)).2.2.2.2.2.2)
      cM cS4 hcM hcS4
  have ht0 : tokVal [renderNat D, renderNat M, renderFloat4 k] 0
      = some ((D : ℚ)) := by
    unfold tokVal
    rw [if_pos (by simp)]
    exact parsePyFloat_renderNat D
  have ht1 : tokVal [renderNat D, renderNat M, renderFloat4 k] 1
      = some ((M : ℚ)) := by
    unfold tokVal
    rw [if_pos (by simp)]
    exact parsePyFloat_renderNat M
  have ht2 : tokVal [renderNat D, renderNat M, renderFloat4 k] 2
      = some ((k : ℚ) / 10000) := by
    unfold tokVal
    rw [if_pos (by simp)]
    exact parsePyFloat_renderFloat4 k
  rw [hsplit]
  unfold parse_dms_str
  dsimp only
  rw [htok, ht0, ht1, ht2]
  dsimp only
  have habs : |(D : ℚ)| = (D : ℚ) := abs_of_nonneg (Nat.cast_nonneg D)
  by_cases hsw : 'S' ∈ rdir ∨ 'W' ∈ rdir
  · rw [if_pos (by
      rcases hsw with h | h
      · exact Or.inl (hmemS.mpr h)
      · exact Or.inr (Or.inl (hmemW.mpr h))), if_pos hsw, habs]
  · rw [if_neg (by
      rintro (h | h | h)
      · exact hsw (Or.inl (hmemS.mp h))
      · exact hsw (Or.inr (hmemW.mp h))
      · exact absurd h (not_lt.mpr (Nat.cast_nonneg D))), if_neg hsw, habs]

/-! ### Rounding bounds -/

theorem roundHalfEven_abs (q : ℚ) : |(roundHalfEven q : ℚ) - q| ≤ 1 / 2 := by
  unfold roundHalfEven
  have h1 : (⌊q⌋ : ℚ) ≤ q := Int.floor_le q
  have h2 : q < ⌊q⌋ + 1 := Int.lt_floor_add_one q
  dsimp only
  split
  · rename_i h
    rw [abs_le]
    constructor <;> linarith
  · split
    · rename_i h h'
      rw [abs_le]
      push_cast
      constructor <;> linarith
    · split <;>
        (rw [abs_le]
         push_cast
         constructor <;> linarith)

theorem roundHalfEven_nonneg (q : ℚ) (h : 0 ≤ q) : 0 ≤ roundHalfEven q := by
  unfold roundHalfEven
  have h1 : 0 ≤ ⌊q⌋ := Int.floor_nonneg.mpr h
  dsimp only
  split
  · exact h1
  · split
    · omega
    · split <;> omega

/-- Degrees–minutes–seconds reconstruction: truncating a non-negative
decimal degree to integer degrees, integer minutes and seconds rounded at
4 decimals loses at most half of `1/10^4` of a second. -/
theorem dms_recon (a : ℚ) (ha : 0 ≤ a) :
    |(((⌊a⌋).toNat : ℚ)
        + ((⌊(a - ((⌊a⌋).toNat : ℚ)) * 60⌋).toNat : ℚ) / 60
        + ((roundHalfEven (((a - ((⌊a⌋).toNat : ℚ)) * 60
            - ((⌊(a - ((⌊a⌋).toNat : ℚ)) * 60⌋).toNat : ℚ)) * 60
              * 10000)).toNat : ℚ) / 10000 / 3600)
      - a| ≤ 1 / 3600 := by
  have hDeq : (((⌊a⌋).toNat : ℚ)) = (⌊a⌋ : ℚ) := by
    exact_mod_cast congrArg (fun z : ℤ => (z : ℚ))
      (Int.toNat_of_nonneg (Int.floor_nonneg.mpr ha))
  have hD1 : (((⌊a⌋).toNat : ℚ)) ≤ a := by
    rw [hDeq]
    exact Int.floor_le a
  have hD2 : a < (((⌊a⌋).toNat : ℚ)) + 1 := by
    rw [hDeq]
    exact Int.lt_floor_add_one a
  set mf : ℚ := (a - ((⌊a⌋).toNat : ℚ)) * 60 with hmf
  have hmf0 : 0 ≤ mf := by
    rw [hmf]
    nlinarith
  have hMeq : (((⌊mf⌋).toNat : ℚ)) = (⌊mf⌋ : ℚ) := by
    exact_mod_cast congrArg (fun z : ℤ => (z : ℚ))
      (Int.toNat_of_nonneg (Int.floor_nonneg.mpr hmf0))
  have hM1 : (((⌊mf⌋).toNat : ℚ)) ≤ mf := by
    rw [hMeq]
    exact Int.floor_le mf
  set x : ℚ := (mf - ((⌊mf⌋).toNat : ℚ)) * 60 * 10000 with hx
  have hx0 : 0 ≤ x := by
    rw [hx]
    nlinarith
  have hKeq : ((roundHalfEven x).toNat : ℚ) = ((roundHalfEven x : ℤ) : ℚ) := by
    exact_mod_cast congrArg (fun z : ℤ => (z : ℚ))
      (Int.toNat_of_nonneg (roundHalfEven_nonneg x hx0))
  have hK : |((roundHalfEven x).toNat : ℚ) - x| ≤ 1 / 2 := by
    rw [hKeq]
    exact roundHalfEven_abs x
  have hid : (((⌊a⌋).toNat : ℚ)) + (((⌊mf⌋).toNat : ℚ)) / 60
      + x / 10000 / 3600 = a := by
    rw [hx, hmf]
    ring
  have hsplit : (((⌊a⌋).toNat : ℚ))
      + (((⌊mf⌋).toNat : ℚ)) / 60
      + ((roundHalfEven x).toNat : ℚ) / 10000 / 3600 - a
      = (((roundHalfEven x).toNat : ℚ) - x) / 36000000 := by
    rw [← hid]
    ring
  rw [hsplit, abs_div, show |(36000000 : ℚ)| = 36000000 from by norm_num]
  have h1 : |((roundHalfEven x).toNat : ℚ) - x| / 36000000 ≤ (1 / 2) / 36000000 :=
    (div_le_div_right (by norm_num)).mpr hK
  linarith [h1]

/-- Sign bookkeeping helpers for the round trip. -/
theorem roundtrip_neg_case (B a d : ℚ) (hd : d = -a) (hb : |B - a| ≤ 1 / 3600) :
    |-B - d| ≤ 1 / 3600 := by
  rw [hd, show -B - -a = -(B - a) from by ring, abs_neg]
  exact hb

theorem roundtrip_pos_case (B a d : ℚ) (hd : d = a) (hb : |B - a| ≤ 1 / 3600) :
    |B - d| ≤ 1 / 3600 := by
  rw [hd]
  exact hb

/-! ### C1: DMS format/parse round trip -/

/-- C1: for every decimal degree value and axis, parsing the string that
`dd_to_dms` produced recovers the value within `1/3600` of a degree (the
actual loss is at most half of `10^-4` seconds). -/
theorem parse_dms_dd_to_dms_roundtrip_c1 (d : ℚ) (b : Bool) :
    ∃ r, parse_dms (PyVal.str (dd_to_dms d b)) = some r ∧
      |r - d| ≤ 1 / 3600 := by
  unfold dd_to_dms
  dsimp only
  simp only [parse_dms]
  cases b <;> by_cases hd : d < 0
  · rw [if_neg (by simp : ¬ ((false : Bool) = true)),
      if_pos (decide_eq_true hd),
      parse_dms_format _ _ _ ("W (BB)".toList) ("W (W)".toList) (by decide) ')'
        (by decide) (by decide) (by decide) (by decide),
      if_pos (by decide)]
    refine ⟨_, rfl, ?_⟩
    exact roundtrip_neg_case _ |d| d (by rw [abs_of_neg hd]; ring)
      (dms_recon |d| (abs_nonneg d))
  · rw [if_neg (by simp : ¬ ((false : Bool) = true)),
      if_neg (by simp [hd]),
      parse_dms_format _ _ _ ("E (BT)".toList) ("E (E)".toList) (by decide) ')'
        (by decide) (by decide) (by decide) (by decide),
      if_neg (by decide)]
    refine ⟨_, rfl, ?_⟩
    exact roundtrip_pos_case _ |d| d (abs_of_nonneg (not_lt.mp hd)).symm
      (dms_recon |d| (abs_nonneg d))
  · rw [if_pos rfl, if_pos (decide_eq_true hd),
      parse_dms_format _ _ _ ("S (LS)".toList) ("S (S)".toList) (by decide) ')'
        (by decide) (by decide) (by decide) (by decide),
      if_pos (by decide)]
    refine ⟨_, rfl, ?_⟩
    exact roundtrip_neg_case _ |d| d (by rw [abs_of_neg hd]; ring)
      (dms_recon |d| (abs_nonneg d))
  · rw [if_pos rfl, if_neg (by simp [hd]),
      parse_dms_format _ _ _ ("N (LU)".toList) ("N (N)".toList) (by decide) ')'
        (by decide) (by decide) (by decide) (by decide),
      if_neg (by decide)]
    refine ⟨_, rfl, ?_⟩
    exact roundtrip_pos_case _ |d| d (abs_of_nonneg (not_lt.mp hd)).symm
      (dms_recon |d| (abs_nonneg d))

/-- Witness for C1 at `d = -247/40` (i.e. -6.175), latitude axis. -/
theorem parse_dms_dd_to_dms_roundtrip_c1_witness :
    ∃ r, parse_dms (PyVal.str (dd_to_dms (-247 / 40) true)) = some r ∧
      |r - (-247 / 40)| ≤ 1 / 3600 :=
  parse_dms_dd_to_dms_roundtrip_c1 (-247 / 40) true
